import Mathlib

/-!
The server of `main.go`: the `GET /get/body` handler and the configuration.

A shallow embedding of `main.go`.  The handler `Server.getBody` is straight-line
code over four library facilities, each modelled here by what it does on the
values the handler passes to it:

* `os.Open` / `io.ReadAll` / `(*os.File).Close` : the file `body.txt` as a
  `FileState` inside a `World`;
* `strings.ReplaceAll` : byte-level replacement of a pattern;
* `encoding/json` : the byte-at-a-time scanner (`scanner.go`) behind
  `json.Unmarshal`, and `appendCompact` (`indent.go`) behind `json.Marshal` of a
  `json.RawMessage`;
* `gin` : the response writer, `Context.JSON` and `Context.AbortWithStatusJSON`
  (rendering with `json.Marshal`, as gin does from version 1.7 on).

Go strings and byte slices are lists of bytes.  A well-formed JSON document is
one the grammar of RFC 8259 derives (`Derives`, `Element`), whatever its depth;
the validator of `json.Unmarshal` (`checkValid`) accepts it up to the nesting
depth `maxNestingDepth`.
-/

namespace DummyServer

/-! ## Bytes

A byte is a natural number; Go strings and byte slices are lists of them. -/

/-- The bytes of an ASCII text. -/
def bytes (s : String) : List Nat := s.toList.map Char.toNat

/-! ## `encoding/json`: scanner.go -/

/-- The error type `*json.SyntaxError`.  Its `msg` field is unexported: it is
never serialised and the handler never prints it, so only `Offset` is kept. -/
structure SyntaxError where
  Offset : Nat
deriving DecidableEq, Repr

/-- The values of the scanner's `parseState` stack. -/
inductive ParseState where
  | parseObjectKey
  | parseObjectValue
  | parseArrayValue
deriving DecidableEq, Repr

/-- The scanner's `step` field: which state function runs on the next byte. -/
inductive StepFn where
  | stateBeginValueOrEmpty
  | stateBeginValue
  | stateBeginStringOrEmpty
  | stateBeginString
  | stateEndValue
  | stateEndTop
  | stateInString
  | stateInStringEsc
  | stateInStringEscU
  | stateInStringEscU1
  | stateInStringEscU12
  | stateInStringEscU123
  | stateNeg
  | state1
  | state0
  | stateDot
  | stateDot0
  | stateE
  | stateESign
  | stateE0
  | stateT
  | stateTr
  | stateTru
  | stateF
  | stateFa
  | stateFal
  | stateFals
  | stateN
  | stateNu
  | stateNul
  | stateError
deriving DecidableEq, Repr

/-- The JSON scanner.  `parseState` keeps the top of Go's slice at the head. -/
structure scanner where
  step : StepFn
  endTop : Bool
  parseState : List ParseState
  err : Option SyntaxError
  bytes : Nat
deriving DecidableEq, Repr

@[reducible] def scanContinue : Nat := 0
@[reducible] def scanBeginLiteral : Nat := 1
@[reducible] def scanBeginObject : Nat := 2
@[reducible] def scanObjectKey : Nat := 3
@[reducible] def scanObjectValue : Nat := 4
@[reducible] def scanEndObject : Nat := 5
@[reducible] def scanBeginArray : Nat := 6
@[reducible] def scanArrayValue : Nat := 7
@[reducible] def scanEndArray : Nat := 8
@[reducible] def scanSkipSpace : Nat := 9
@[reducible] def scanEnd : Nat := 10
@[reducible] def scanError : Nat := 11

/-- The nesting limit of the scanner. -/
def maxNestingDepth : Nat := 10000

/-- A fresh scanner after `reset`: `newScanner`, or the zero `decodeState`. -/
def scanner.reset : scanner :=
  { step := .stateBeginValue, endTop := false, parseState := [], err := none, bytes := 0 }

/-- Go `isSpace`: space, tab, carriage return, line feed. -/
def isSpace (c : Nat) : Bool :=
  decide (c ≤ 0x20) && (c == 0x20 || c == 0x09 || c == 0x0D || c == 0x0A)

/-- Decimal digit `'0' <= c && c <= '9'`. -/
def isDigit (c : Nat) : Bool := decide (0x30 ≤ c) && decide (c ≤ 0x39)

/-- Digit from `'1'` to `'9'`. -/
def isDigit19 (c : Nat) : Bool := decide (0x31 ≤ c) && decide (c ≤ 0x39)

/-- Hexadecimal digit, either case. -/
def isHex (c : Nat) : Bool :=
  isDigit c || (decide (0x61 ≤ c) && decide (c ≤ 0x66)) || (decide (0x41 ≤ c) && decide (c ≤ 0x46))

/-- Go `(*scanner).error`: record a syntax error at the current byte count. -/
def scanner.error (s : scanner) : scanner × Nat :=
  ({ s with step := .stateError, err := some ⟨s.bytes⟩ }, scanError)

/-- Go `pushParseState`. -/
def scanner.pushParseState (s : scanner) (newParseState : ParseState) (successState : Nat) :
    scanner × Nat :=
  let s1 := { s with parseState := newParseState :: s.parseState }
  if s1.parseState.length ≤ maxNestingDepth then (s1, successState) else s1.error

/-- Go `popParseState`. -/
def scanner.popParseState (s : scanner) : scanner :=
  let ps := s.parseState.tail
  if ps.length = 0 then { s with parseState := ps, step := .stateEndTop, endTop := true }
  else { s with parseState := ps, step := .stateEndValue }

/-- Go `stateEndTop`: a non-space byte records an error, yet `scanEnd` is returned. -/
def stateEndTop (s : scanner) (c : Nat) : scanner × Nat :=
  if !isSpace c then (s.error.1, scanEnd) else (s, scanEnd)

/-- Go `stateEndValue`. -/
def stateEndValue (s : scanner) (c : Nat) : scanner × Nat :=
  match s.parseState with
  | [] => stateEndTop { s with step := .stateEndTop, endTop := true } c
  | ps :: rest =>
    if isSpace c then ({ s with step := .stateEndValue }, scanSkipSpace)
    else match ps with
      | .parseObjectKey =>
        if c = 0x3A then
          ({ s with parseState := .parseObjectValue :: rest, step := .stateBeginValue },
            scanObjectKey)
        else s.error
      | .parseObjectValue =>
        if c = 0x2C then
          ({ s with parseState := .parseObjectKey :: rest, step := .stateBeginString },
            scanObjectValue)
        else if c = 0x7D then (s.popParseState, scanEndObject)
        else s.error
      | .parseArrayValue =>
        if c = 0x2C then ({ s with step := .stateBeginValue }, scanArrayValue)
        else if c = 0x5D then (s.popParseState, scanEndArray)
        else s.error

/-- Go `stateBeginValue`. -/
def stateBeginValue (s : scanner) (c : Nat) : scanner × Nat :=
  if isSpace c then (s, scanSkipSpace)
  else if c = 0x7B then
    { s with step := .stateBeginStringOrEmpty }.pushParseState .parseObjectKey scanBeginObject
  else if c = 0x5B then
    { s with step := .stateBeginValueOrEmpty }.pushParseState .parseArrayValue scanBeginArray
  else if c = 0x22 then ({ s with step := .stateInString }, scanBeginLiteral)
  else if c = 0x2D then ({ s with step := .stateNeg }, scanBeginLiteral)
  else if c = 0x30 then ({ s with step := .state0 }, scanBeginLiteral)
  else if c = 0x74 then ({ s with step := .stateT }, scanBeginLiteral)
  else if c = 0x66 then ({ s with step := .stateF }, scanBeginLiteral)
  else if c = 0x6E then ({ s with step := .stateN }, scanBeginLiteral)
  else if isDigit19 c then ({ s with step := .state1 }, scanBeginLiteral)
  else s.error

/-- Go `stateBeginValueOrEmpty`. -/
def stateBeginValueOrEmpty (s : scanner) (c : Nat) : scanner × Nat :=
  if isSpace c then (s, scanSkipSpace)
  else if c = 0x5D then stateEndValue s c
  else stateBeginValue s c

/-- Go `stateBeginString`. -/
def stateBeginString (s : scanner) (c : Nat) : scanner × Nat :=
  if isSpace c then (s, scanSkipSpace)
  else if c = 0x22 then ({ s with step := .stateInString }, scanBeginLiteral)
  else s.error

/-- Go `stateBeginStringOrEmpty`; the state is entered only right after a push,
so the stack it overwrites the top of is never empty. -/
def stateBeginStringOrEmpty (s : scanner) (c : Nat) : scanner × Nat :=
  if isSpace c then (s, scanSkipSpace)
  else if c = 0x7D then
    stateEndValue { s with parseState := .parseObjectValue :: s.parseState.tail } c
  else stateBeginString s c

/-- Go `stateInString`. -/
def stateInString (s : scanner) (c : Nat) : scanner × Nat :=
  if c = 0x22 then ({ s with step := .stateEndValue }, scanContinue)
  else if c = 0x5C then ({ s with step := .stateInStringEsc }, scanContinue)
  else if c < 0x20 then s.error
  else (s, scanContinue)

/-- Go `stateInStringEsc`. -/
def stateInStringEsc (s : scanner) (c : Nat) : scanner × Nat :=
  if c = 0x62 ∨ c = 0x66 ∨ c = 0x6E ∨ c = 0x72 ∨ c = 0x74 ∨ c = 0x5C ∨ c = 0x2F ∨ c = 0x22 then
    ({ s with step := .stateInString }, scanContinue)
  else if c = 0x75 then ({ s with step := .stateInStringEscU }, scanContinue)
  else s.error

/-- The four `stateInStringEscU*` functions: a hex digit moves on to `next`. -/
def stateHex (next : StepFn) (s : scanner) (c : Nat) : scanner × Nat :=
  if isHex c then ({ s with step := next }, scanContinue) else s.error

/-- The literal states (`stateT`, `stateTr`, ...): exactly `want` moves on to `next`. -/
def stateLit (want : Nat) (next : StepFn) (s : scanner) (c : Nat) : scanner × Nat :=
  if c = want then ({ s with step := next }, scanContinue) else s.error

/-- Go `stateNeg`. -/
def stateNeg (s : scanner) (c : Nat) : scanner × Nat :=
  if c = 0x30 then ({ s with step := .state0 }, scanContinue)
  else if isDigit19 c then ({ s with step := .state1 }, scanContinue)
  else s.error

/-- Go `state0`. -/
def state0 (s : scanner) (c : Nat) : scanner × Nat :=
  if c = 0x2E then ({ s with step := .stateDot }, scanContinue)
  else if c = 0x65 ∨ c = 0x45 then ({ s with step := .stateE }, scanContinue)
  else stateEndValue s c

/-- Go `state1`. -/
def state1 (s : scanner) (c : Nat) : scanner × Nat :=
  if isDigit c then ({ s with step := .state1 }, scanContinue) else state0 s c

/-- Go `stateDot`. -/
def stateDot (s : scanner) (c : Nat) : scanner × Nat :=
  if isDigit c then ({ s with step := .stateDot0 }, scanContinue) else s.error

/-- Go `stateDot0`. -/
def stateDot0 (s : scanner) (c : Nat) : scanner × Nat :=
  if isDigit c then (s, scanContinue)
  else if c = 0x65 ∨ c = 0x45 then ({ s with step := .stateE }, scanContinue)
  else stateEndValue s c

/-- Go `stateESign`. -/
def stateESign (s : scanner) (c : Nat) : scanner × Nat :=
  if isDigit c then ({ s with step := .stateE0 }, scanContinue) else s.error

/-- Go `stateE`. -/
def stateE (s : scanner) (c : Nat) : scanner × Nat :=
  if c = 0x2B ∨ c = 0x2D then ({ s with step := .stateESign }, scanContinue)
  else stateESign s c

/-- Go `stateE0`. -/
def stateE0 (s : scanner) (c : Nat) : scanner × Nat :=
  if isDigit c then (s, scanContinue) else stateEndValue s c

/-- Go `stateError`. -/
def stateError (s : scanner) (_c : Nat) : scanner × Nat := (s, scanError)

/-- The call `s.step(s, c)`: run the current state function on one byte. -/
def scanner.run (s : scanner) (c : Nat) : scanner × Nat :=
  match s.step with
  | .stateBeginValueOrEmpty => stateBeginValueOrEmpty s c
  | .stateBeginValue => stateBeginValue s c
  | .stateBeginStringOrEmpty => stateBeginStringOrEmpty s c
  | .stateBeginString => stateBeginString s c
  | .stateEndValue => stateEndValue s c
  | .stateEndTop => stateEndTop s c
  | .stateInString => stateInString s c
  | .stateInStringEsc => stateInStringEsc s c
  | .stateInStringEscU => stateHex .stateInStringEscU1 s c
  | .stateInStringEscU1 => stateHex .stateInStringEscU12 s c
  | .stateInStringEscU12 => stateHex .stateInStringEscU123 s c
  | .stateInStringEscU123 => stateHex .stateInString s c
  | .stateNeg => stateNeg s c
  | .state1 => state1 s c
  | .state0 => state0 s c
  | .stateDot => stateDot s c
  | .stateDot0 => stateDot0 s c
  | .stateE => stateE s c
  | .stateESign => stateESign s c
  | .stateE0 => stateE0 s c
  | .stateT => stateLit 0x72 .stateTr s c
  | .stateTr => stateLit 0x75 .stateTru s c
  | .stateTru => stateLit 0x65 .stateEndValue s c
  | .stateF => stateLit 0x61 .stateFa s c
  | .stateFa => stateLit 0x6C .stateFal s c
  | .stateFal => stateLit 0x73 .stateFals s c
  | .stateFals => stateLit 0x65 .stateEndValue s c
  | .stateN => stateLit 0x75 .stateNu s c
  | .stateNu => stateLit 0x6C .stateNul s c
  | .stateNul => stateLit 0x6C .stateEndValue s c
  | .stateError => stateError s c

/-- Go `(*scanner).eof`: the error the scanner ends with, `none` when the input
was a complete JSON value. -/
def scanner.eof (s : scanner) : Option SyntaxError :=
  match s.err with
  | some e => some e
  | none =>
    if s.endTop then none
    else
      let s1 := (s.run 0x20).1
      if s1.endTop then none
      else match s1.err with
        | some e => some e
        | none => some ⟨s.bytes⟩

/-- The loop of Go `checkValid`, from scanner state `s`. -/
def checkValidFrom (s : scanner) : List Nat → Option SyntaxError
  | [] => s.eof
  | c :: cs =>
    let r := { s with bytes := s.bytes + 1 }.run c
    if r.2 = scanError then r.1.err else checkValidFrom r.1 cs

/-- Go `checkValid(data, scan)`: `none` is the nil error. -/
def checkValid (data : List Nat) : Option SyntaxError :=
  checkValidFrom scanner.reset data

/-! ## `encoding/json`: indent.go, decode.go, encode.go -/

/-- The table `hex = "0123456789abcdef"`. -/
def hex (n : Nat) : Nat := if n < 10 then 0x30 + n else 0x57 + n

/-- The test `i+2 < len(src) && src[i+1] == 0x80 && src[i+2]&^1 == 0xA8` that
`appendCompact` makes at a byte `0xE2` (U+2028 and U+2029 are `E2 80 A8` and
`E2 80 A9`), on the bytes after it; the result is `src[i+2]`. -/
def lineSep : List Nat → Option Nat
  | c1 :: c2 :: _ => if c1 = 0x80 ∧ c2 / 2 * 2 = 0xA8 then some c2 else none
  | _ => none

/-- The loop of Go `appendCompact(dst, src, escape)` from scanner state `s`.
Go copies `src[start:i]` lazily; here a byte is emitted as soon as the loop has
passed it, and `ahead` is `start - i` (how many of the next bytes an escape has
already replaced).  `none` is the error return. -/
def compactFrom (escape : Bool) (s : scanner) (ahead : Nat) : List Nat → Option (List Nat)
  | [] =>
    match s.eof with
    | some _ => none
    | none => some []
  | c :: cs =>
    let esc1 := escape && (c == 0x3C || c == 0x3E || c == 0x26)
    let out1 := if esc1 then [0x5C, 0x75, 0x30, 0x30, hex (c / 16), hex (c % 16)] else []
    let k1 := if esc1 then 1 else ahead
    let esc2 := if escape && c == 0xE2 then lineSep cs else none
    let out2 :=
      match esc2 with
      | some c2 => [0x5C, 0x75, 0x32, 0x30, 0x32, hex (c2 % 16)]
      | none => []
    let k2 := if esc2.isSome then 3 else k1
    let r := s.run c
    if r.2 = scanError then
      match r.1.eof with
      | some _ => none
      | none => some (out1 ++ out2 ++ (c :: cs).drop k2)
    else
      let k3 := if scanSkipSpace ≤ r.2 then 1 else k2
      let keep := if k3 = 0 then [c] else []
      (compactFrom escape r.1 (k3 - 1) cs).map (fun rest => out1 ++ out2 ++ keep ++ rest)

/-- Go `appendCompact` with an empty `dst` and a scanner from `newScanner`. -/
def compact (escape : Bool) (src : List Nat) : Option (List Nat) :=
  compactFrom escape scanner.reset 0 src

/-- A `json.RawMessage`: `none` is the nil slice. -/
abbrev RawMessage := Option (List Nat)

/-- The text of the top-level value of a valid document: what the decoder hands
to `RawMessage.UnmarshalJSON` (it skips leading space, and the value ends at its
last byte). -/
def trimSpace (data : List Nat) : List Nat :=
  ((data.dropWhile isSpace).reverse.dropWhile isSpace).reverse

/-- Go `json.Unmarshal(data, &m)` for `m` a `json.RawMessage`: the new value of
`m` and the returned error. -/
def json.Unmarshal (data : List Nat) (m : RawMessage) : RawMessage × Option SyntaxError :=
  match checkValid data with
  | some e => (m, some e)
  | none => (some (trimSpace data), none)

/-- The errors the handler can hold. -/
inductive GoError where
  /-- Type `*fs.PathError` whose `Err` is a `syscall.Errno`. -/
  | PathError (Op : String) (Path : String) (Err : Nat)
  /-- The value `os.ErrInvalid`, an `*errors.errorString`. -/
  | ErrInvalid
  /-- Type `*json.SyntaxError`. -/
  | Syntax (e : SyntaxError)
deriving DecidableEq, Repr

/-- Decimal digits of a natural number. -/
def decimal (n : Nat) : List Nat := (Nat.toDigits 10 n).map Char.toNat

/-- What `c.JSON` is asked to serialise. -/
inductive JSONObj where
  | error (e : GoError)
  | raw (m : RawMessage)
deriving DecidableEq, Repr

/-- Go `json.Marshal(obj)`; `none` is the error return.  A struct is encoded by
its exported fields (`Op`, `Path`, `Err`; `Offset`), an `errorString` has none, a
`syscall.Errno` is an unsigned integer, and a `RawMessage` is compacted with
HTML escaping (nil gives `null`).  `Op` and `Path` only ever hold `open`,
`read` and `body.txt`, which the string encoder copies unchanged. -/
def json.Marshal : JSONObj → Option (List Nat)
  | .error (.PathError op path errno) =>
    some (bytes "\x7b\"Op\":\"" ++ bytes op ++ bytes "\",\"Path\":\"" ++ bytes path ++
      bytes "\",\"Err\":" ++ decimal errno ++ bytes "\x7d")
  | .error .ErrInvalid => some (bytes "\x7b\x7d")
  | .error (.Syntax e) => some (bytes "\x7b\"Offset\":" ++ decimal e.Offset ++ bytes "\x7d")
  | .raw m => compact true (m.getD (bytes "null"))

/-! ## `strings` -/

/-- The loop of `strings.ReplaceAll` for a pattern of first byte `o` and rest `os`;
`skip` counts the bytes of a match still to drop. -/
def replaceAllFrom (o : Nat) (os new : List Nat) : Nat → List Nat → List Nat
  | _, [] => []
  | skip + 1, _ :: cs => replaceAllFrom o os new skip cs
  | 0, c :: cs =>
    if (o :: os).isPrefixOf (c :: cs) then new ++ replaceAllFrom o os new os.length cs
    else c :: replaceAllFrom o os new 0 cs

/-- Go `strings.ReplaceAll(s, old, new)` for the non-empty pattern `old = o :: os`. -/
def strings.ReplaceAll (s : List Nat) (o : Nat) (os new : List Nat) : List Nat :=
  replaceAllFrom o os new 0 s

/-! ## The file `body.txt` -/

/-- What the process finds under the name `body.txt`. -/
inductive FileState where
  /-- Opening fails with the given errno (absent, no permission, ...). -/
  | missing (errno : Nat)
  /-- Opening succeeds; reading delivers `data` and then fails with the errno. -/
  | failing (data : List Nat) (errno : Nat)
  /-- Opening and reading succeed. -/
  | regular (data : List Nat)
deriving DecidableEq, Repr

/-- The part of the environment the handler touches. -/
structure World where
  bodyTxt : FileState
  openFiles : Nat
deriving DecidableEq, Repr

/-- An open `*os.File`: what reading it to the end will deliver. -/
structure File where
  data : List Nat
  readErr : Option GoError
deriving DecidableEq, Repr

/-- Go `os.Open(name)`: the handle (`none` is the nil pointer), the error, the world. -/
def os.Open (name : String) (w : World) : Option File × Option GoError × World :=
  match w.bodyTxt with
  | .missing errno => (none, some (.PathError "open" name errno), w)
  | .failing data errno =>
    (some ⟨data, some (.PathError "read" name errno)⟩, none,
      { w with openFiles := w.openFiles + 1 })
  | .regular data => (some ⟨data, none⟩, none, { w with openFiles := w.openFiles + 1 })

/-- Go `io.ReadAll(file)`: `(*os.File).Read` on a nil receiver returns `ErrInvalid`. -/
def io.ReadAll (file : Option File) : List Nat × Option GoError :=
  match file with
  | none => ([], some .ErrInvalid)
  | some f => (f.data, f.readErr)

/-- Go `file.Close()`: on a nil receiver it returns `ErrInvalid` and does nothing. -/
def File.Close (file : Option File) (w : World) : Option GoError × World :=
  match file with
  | none => (some .ErrInvalid, w)
  | some _ => (none, { w with openFiles := w.openFiles - 1 })

/-! ## `gin` -/

/-- The gin `responseWriter` over the connection: `sent` is the status line handed
to the underlying `http.ResponseWriter`, `body` the bytes written to it. -/
structure responseWriter where
  status : Nat
  size : Int
  sent : Option Nat
  body : List Nat
deriving DecidableEq, Repr

/-- A writer after `reset`: `defaultStatus` 200 and `noWritten` -1. -/
def responseWriter.reset : responseWriter :=
  { status := 200, size := -1, sent := none, body := [] }

/-- Go `Written`. -/
def responseWriter.Written (w : responseWriter) : Bool := w.size != -1

/-- Go `WriteHeader(code)`: ignored once something was written. -/
def responseWriter.WriteHeader (w : responseWriter) (code : Nat) : responseWriter :=
  if 0 < code ∧ w.status ≠ code then
    if w.Written then w else { w with status := code }
  else w

/-- Go `WriteHeaderNow`. -/
def responseWriter.WriteHeaderNow (w : responseWriter) : responseWriter :=
  if !w.Written then { w with size := 0, sent := some w.status } else w

/-- Go `Write(data)`. -/
def responseWriter.Write (w : responseWriter) (data : List Nat) : responseWriter :=
  let w1 := w.WriteHeaderNow
  { w1 with body := w1.body ++ data, size := w1.size + data.length }

/-- The part of `gin.Context` the handler reaches. -/
structure Context where
  Writer : responseWriter
  aborted : Bool
  Errors : Nat
deriving DecidableEq, Repr

/-- Go `bodyAllowedForStatus`. -/
def bodyAllowedForStatus (status : Nat) : Bool :=
  if 100 ≤ status ∧ status ≤ 199 then false
  else if status = 204 then false
  else if status = 304 then false
  else true

/-- Go `c.JSON(code, obj)`, that is `c.Render(code, render.JSON{obj})`. -/
def Context.JSON (c : Context) (code : Nat) (obj : JSONObj) : Context :=
  let c1 := { c with Writer := c.Writer.WriteHeader code }
  if !bodyAllowedForStatus code then { c1 with Writer := c1.Writer.WriteHeaderNow }
  else
    match json.Marshal obj with
    | some jsonBytes => { c1 with Writer := c1.Writer.Write jsonBytes }
    | none => { c1 with Errors := c1.Errors + 1, aborted := true }

/-- Go `c.AbortWithStatusJSON(code, jsonObj)`. -/
def Context.AbortWithStatusJSON (c : Context) (code : Nat) (jsonObj : JSONObj) : Context :=
  { c with aborted := true }.JSON code jsonObj

/-! ## main.go -/

/-- The state a handler runs in: the gin context, the environment, the log. -/
structure Run where
  c : Context
  world : World
  log : List String
deriving DecidableEq, Repr

/-- The three failure branches of `getBody`: log and abort when `err != nil`. -/
def onError (r : Run) (err : Option GoError) (msg : String) : Run :=
  match err with
  | some e => { r with log := r.log ++ [msg], c := r.c.AbortWithStatusJSON 500 (.error e) }
  | none => r

/-- The handler returned by `(*Server).getBody`. -/
def Server.getBody (r0 : Run) : Run :=
  let (file, err, w1) := os.Open "body.txt" r0.world
  let r1 := onError { r0 with world := w1 } err "error opening file body.txt"
  let (bodyFile, err) := io.ReadAll file
  let r2 := onError r1 err "error reading file body.txt"
  let (_, w2) := File.Close file r2.world
  let r3 := { r2 with world := w2 }
  let bodyText := bodyFile
  let bodyText := strings.ReplaceAll bodyText 0x0A [] []
  let bodyText := strings.ReplaceAll bodyText 0x0D [] []
  let data : RawMessage := none
  let (data, err) := json.Unmarshal bodyText data
  let r4 := onError r3 (err.map GoError.Syntax) "error unmarshal data body.txt"
  { r4 with c := r4.c.JSON 200 (.raw data) }

/-- What the client receives. -/
structure Response where
  status : Nat
  body : List Nat
deriving DecidableEq, Repr

/-- The state in which gin calls the handler: a reset context, an empty log. -/
def fresh (w : World) : Run :=
  { c := ⟨responseWriter.reset, false, 0⟩, world := w, log := [] }

/-- One request to `GET /get/body`: gin resets the context, runs the handler and
then calls `WriteHeaderNow`. -/
def serve (w : World) : Run :=
  let r := Server.getBody (fresh w)
  { r with c := { r.c with Writer := r.c.Writer.WriteHeaderNow } }

/-- The response of a run. -/
def Run.response (r : Run) : Response :=
  { status := r.c.Writer.sent.getD 0, body := r.c.Writer.body }

/-- The response to `GET /get/body` when `body.txt` is in state `f`. -/
def respond (f : FileState) : Response := (serve ⟨f, 0⟩).response

/-- The configuration. -/
structure Config where
  Debug : Bool
  Host : String
  Port : Int
deriving DecidableEq, Repr

/-- The part of `main` between `flag.Parse()` and `New`: from the parsed flags
`host`, `port`, `debug` to the `Config`. -/
def mainConfig (host : String) (port : Int) (debug : Bool) : Config :=
  let host := if host = "" then "127.0.0.1" else host
  let port := if port = 0 then 1515 else port
  { Host := host, Port := port, Debug := debug }

/-- The values the three flags hold when the command line names none of them:
the defaults given to `flag.StringVar`, `flag.IntVar` and `flag.BoolVar`. -/
def flagDefaults : String × Int × Bool := ("", 0, false)

/-- The verb `%d` of `fmt.Sprintf` on an `int`. -/
def fmtInt : Int → String
  | .ofNat n => String.mk (Nat.toDigits 10 n)
  | .negSucc n => "-" ++ String.mk (Nat.toDigits 10 (n + 1))

/-- The fields of the `http.Server` that `Start` fills in (times in seconds). -/
structure httpServer where
  Addr : String
  ReadTimeout : Nat
  IdleTimeout : Nat
  WriteTimeout : Nat
deriving DecidableEq, Repr

/-- The server: its configuration (the gin engine holds the one route). -/
structure Server where
  Config : Config
deriving DecidableEq, Repr

/-- The constructor `New(ctx, conf)`. -/
def New (conf : Config) : Server := { Config := conf }

/-- The value `(*Server).Start` builds before it starts listening. -/
def Server.Start (s : Server) : httpServer :=
  { Addr := s.Config.Host ++ ":" ++ fmtInt s.Config.Port,
    ReadTimeout := 300, IdleTimeout := 300, WriteTimeout := 30 }

/-! ## Well-formed JSON (RFC 8259) -/

/-- JSON white space `ws`: a run of spaces, tabs, line feeds and carriage returns. -/
def IsWS (l : List Nat) : Prop := ∀ c ∈ l, c = 0x20 ∨ c = 0x09 ∨ c = 0x0A ∨ c = 0x0D

/-- The characters between the quotes of a JSON string: any byte from `0x20` on
other than the quote and the backslash, or a backslash followed by one of
`"`, `\`, `/`, `b`, `f`, `n`, `r`, `t`, or by `u` and four hexadecimal digits. -/
inductive IsChars : List Nat → Prop where
  | nil : IsChars []
  | plain (c : Nat) (l : List Nat) : 0x20 ≤ c → c ≠ 0x22 → c ≠ 0x5C → IsChars l →
      IsChars (c :: l)
  | escaped (c : Nat) (l : List Nat) :
      (c = 0x22 ∨ c = 0x5C ∨ c = 0x2F ∨ c = 0x62 ∨ c = 0x66 ∨ c = 0x6E ∨ c = 0x72 ∨ c = 0x74) →
      IsChars l → IsChars (0x5C :: c :: l)
  | unicode (a b c d : Nat) (l : List Nat) : isHex a = true → isHex b = true →
      isHex c = true → isHex d = true → IsChars l →
      IsChars (0x5C :: 0x75 :: a :: b :: c :: d :: l)

/-- A JSON string: characters between two quotes. -/
def IsString (l : List Nat) : Prop := ∃ cs, IsChars cs ∧ l = 0x22 :: (cs ++ [0x22])

/-- One or more decimal digits. -/
def IsDigits (l : List Nat) : Prop := l ≠ [] ∧ ∀ c ∈ l, isDigit c = true

/-- The integer part of a number: `0`, or a digit from 1 to 9 and more digits. -/
def IsInt (l : List Nat) : Prop :=
  l = [0x30] ∨ ∃ c ds, l = c :: ds ∧ isDigit19 c = true ∧ ∀ d ∈ ds, isDigit d = true

/-- The fraction of a number: nothing, or a point and digits. -/
def IsFrac (l : List Nat) : Prop := l = [] ∨ ∃ ds, IsDigits ds ∧ l = 0x2E :: ds

/-- The exponent of a number: nothing, or `e` or `E`, a sign or none, and digits. -/
def IsExp (l : List Nat) : Prop :=
  l = [] ∨ ∃ e sg ds, (e = 0x65 ∨ e = 0x45) ∧ (sg = [] ∨ sg = [0x2B] ∨ sg = [0x2D]) ∧
    IsDigits ds ∧ l = e :: (sg ++ ds)

/-- A JSON number: an optional minus, the integer part, fraction and exponent. -/
def IsNumber (l : List Nat) : Prop :=
  ∃ m i f e, (m = [] ∨ m = [0x2D]) ∧ IsInt i ∧ IsFrac f ∧ IsExp e ∧ l = m ++ (i ++ (f ++ e))

/-- The nonterminals of the grammar that contain values. -/
inductive NT where
  | value
  | elements
  | members
deriving DecidableEq, Repr

/-- The JSON grammar.  `Derives nt d l`: the bytes `l` are a `value`, the
`elements` of an array or the `members` of an object, with arrays and objects
nested at most `d` deep. -/
inductive Derives : NT → Nat → List Nat → Prop where
  | litTrue (d : Nat) : Derives .value d [0x74, 0x72, 0x75, 0x65]
  | litFalse (d : Nat) : Derives .value d [0x66, 0x61, 0x6C, 0x73, 0x65]
  | litNull (d : Nat) : Derives .value d [0x6E, 0x75, 0x6C, 0x6C]
  | number (d : Nat) (l : List Nat) : IsNumber l → Derives .value d l
  | string (d : Nat) (l : List Nat) : IsString l → Derives .value d l
  | arrayEmpty (d : Nat) (w : List Nat) : IsWS w → Derives .value (d + 1) (0x5B :: (w ++ [0x5D]))
  | array (d : Nat) (es : List Nat) : Derives .elements d es →
      Derives .value (d + 1) (0x5B :: (es ++ [0x5D]))
  | objectEmpty (d : Nat) (w : List Nat) : IsWS w →
      Derives .value (d + 1) (0x7B :: (w ++ [0x7D]))
  | object (d : Nat) (ms : List Nat) : Derives .members d ms →
      Derives .value (d + 1) (0x7B :: (ms ++ [0x7D]))
  | element (d : Nat) (w1 v w2 : List Nat) : IsWS w1 → Derives .value d v → IsWS w2 →
      Derives .elements d (w1 ++ (v ++ w2))
  | elementCons (d : Nat) (w1 v w2 es : List Nat) : IsWS w1 → Derives .value d v → IsWS w2 →
      Derives .elements d es → Derives .elements d (w1 ++ (v ++ (w2 ++ 0x2C :: es)))
  | member (d : Nat) (w1 k w2 w3 v w4 : List Nat) : IsWS w1 → IsString k → IsWS w2 →
      IsWS w3 → Derives .value d v → IsWS w4 →
      Derives .members d (w1 ++ (k ++ (w2 ++ 0x3A :: (w3 ++ (v ++ w4)))))
  | memberCons (d : Nat) (w1 k w2 w3 v w4 ms : List Nat) : IsWS w1 → IsString k → IsWS w2 →
      IsWS w3 → Derives .value d v → IsWS w4 → Derives .members d ms →
      Derives .members d (w1 ++ (k ++ (w2 ++ 0x3A :: (w3 ++ (v ++ (w4 ++ 0x2C :: ms))))))

/-- A JSON document nested at most `d` deep: a value between white space. -/
def Element (d : Nat) (l : List Nat) : Prop :=
  ∃ w1 v w2, IsWS w1 ∧ Derives .value d v ∧ IsWS w2 ∧ l = w1 ++ (v ++ w2)

/-- A well-formed JSON document, of any depth. -/
def WellFormed (l : List Nat) : Prop := ∃ d, Element d l

/-- The document of `n` opening brackets followed by `n` closing brackets. -/
def nested (n : Nat) : List Nat := List.replicate n 0x5B ++ List.replicate n 0x5D

/-! ## The notions the specification uses -/

/-- Removal of every line feed and carriage return, all other bytes kept in order. -/
def strip (s : List Nat) : List Nat := s.filter (fun c => c != 0x0A && c != 0x0D)

/-- The scanner accepts the rest of a document from state `s`: no byte records an
error and the end of input completes a value.  The byte counter plays no part. -/
def accepts (s : scanner) : List Nat → Prop
  | [] => s.eof = none
  | c :: cs => (s.run c).1.err = none ∧ accepts (s.run c).1 cs

/-- States a scanner can be in while no error was recorded. -/
def Good (s : scanner) : Prop :=
  s.err = none ∧ s.step ≠ .stateError ∧ (s.endTop = true ↔ s.step = .stateEndTop)

/-- The step functions in which a number may end at the next byte. -/
def numEnd (f : StepFn) : Prop :=
  f = .state0 ∨ f = .state1 ∨ f = .stateDot0 ∨ f = .stateE0

/-- The scanner over a document (`s`) and the scanner over the stripped document
(`t`) after corresponding prefixes: equal, or `t` still inside a number that a
removed line break has already ended for `s`. -/
def Sim (s t : scanner) : Prop :=
  Good s ∧ Good t ∧ s.parseState = t.parseState ∧
  (t.step = s.step ∨
   (s.step = .stateEndValue ∧ numEnd t.step) ∨
   (s.step = .stateEndTop ∧ s.parseState = [] ∧ (numEnd t.step ∨ t.step = .stateEndValue)))

/-- Boolean form of `Good`. -/
def goodb (s : scanner) : Bool :=
  s.err.isNone && decide (s.step ≠ .stateError) && (s.endTop == decide (s.step = .stateEndTop))

/-- A step that reports `scanError`, or leaves an error behind, has recorded the
error and switched to `stateError`. -/
def errb (r : scanner × Nat) : Bool :=
  (r.1.err.isNone && decide (r.2 ≠ scanError)) ||
    (!r.1.err.isNone && decide (r.1.step = .stateError))

/-- The bytes an escape of `appendCompact` has replaced lie ahead: after `E2`
come `80` and then `A8` or `A9`. -/
def Window (k : Nat) (cs : List Nat) : Prop :=
  k = 0 ∨ (k = 1 ∧ ∃ x rest, cs = x :: rest ∧ x / 2 * 2 = 0xA8) ∨
    (k = 2 ∧ ∃ x rest, cs = 0x80 :: x :: rest ∧ x / 2 * 2 = 0xA8)

/-- The payload of the `*fs.PathError` of a failed open or read of `body.txt`. -/
def pathPayload (op : String) (errno : Nat) : List Nat :=
  bytes "\x7b\"Op\":\"" ++ bytes op ++ bytes "\",\"Path\":\"" ++ bytes "body.txt" ++
    bytes "\",\"Err\":" ++ decimal errno ++ bytes "\x7d"

/-- The payload of a `*json.SyntaxError`. -/
def syntaxPayload (e : SyntaxError) : List Nat :=
  bytes "\x7b\"Offset\":" ++ decimal e.Offset ++ bytes "\x7d"

/-! ## The scanner over a well-formed document -/

/-- The scanner after the bytes `l`, from state `s` (the byte counter is not
advanced: it only dates the error a step records). -/
def scanAll (s : scanner) (l : List Nat) : scanner := l.foldl (fun s c => (s.run c).1) s

/-- The step functions that wait for a value. -/
def beginV (st : StepFn) : Prop := st = .stateBeginValue ∨ st = .stateBeginValueOrEmpty

/-- The step functions that wait for an object key. -/
def beginK (st : StepFn) : Prop := st = .stateBeginString ∨ st = .stateBeginStringOrEmpty

/-- The step functions the scanner can be in right after a value, over the stack `ps`. -/
def afterV (st : StepFn) (ps : List ParseState) : Prop :=
  st = .stateEndValue ∨ numEnd st ∨ (st = .stateEndTop ∧ ps = [])

/-- The scanner in step function `st` over stack `ps`, no error recorded. -/
def scannerAt (st : StepFn) (ps : List ParseState) (b : Nat) : scanner :=
  ⟨st, decide (st = .stateEndTop), ps, none, b⟩

/-- The step function after a pop. -/
def popped (ps : List ParseState) : StepFn :=
  if ps.length = 0 then .stateEndTop else .stateEndValue

/-- What reading a derivation of the grammar does to the scanner: a value takes
it from where a value may begin to where a value has ended, over the same
stack; the elements of an array likewise, over the stack with the array on top;
the members of an object take it from where a key may begin to where a value
has ended. -/
def Scans (nt : NT) (d : Nat) (l : List Nat) : Prop :=
  match nt with
  | .value => ∀ st ps b, beginV st → ps.length + d ≤ maxNestingDepth →
      ∃ st2, afterV st2 ps ∧ scanAll (scannerAt st ps b) l = scannerAt st2 ps b
  | .elements => ∀ st ps b, beginV st → ps.length + 1 + d ≤ maxNestingDepth →
      ∃ st2, afterV st2 (.parseArrayValue :: ps) ∧
        scanAll (scannerAt st (.parseArrayValue :: ps) b) l =
          scannerAt st2 (.parseArrayValue :: ps) b
  | .members => ∀ st ps b, beginK st → ps.length + 1 + d ≤ maxNestingDepth →
      ∃ st2, afterV st2 (.parseObjectValue :: ps) ∧
        scanAll (scannerAt st (.parseObjectKey :: ps) b) l =
          scannerAt st2 (.parseObjectValue :: ps) b

/-! ## Lemmas on the scanner -/

theorem strip_cons_nl (c : Nat) (cs : List Nat) (h : c = 0x0A ∨ c = 0x0D) :
    strip (c :: cs) = strip cs := by
  rcases h with h | h <;> subst h <;> simp [strip]

theorem strip_cons_other (c : Nat) (cs : List Nat) (h1 : c ≠ 0x0A) (h2 : c ≠ 0x0D) :
    strip (c :: cs) = c :: strip cs := by
  simp [strip, h1, h2]

theorem replaceAllFrom_single (o : Nat) (s : List Nat) :
    replaceAllFrom o [] [] 0 s = s.filter (fun c => c != o) := by
  induction s with
  | nil => simp [replaceAllFrom]
  | cons c cs ih =>
    by_cases h : o = c
    · subst h
      simp [replaceAllFrom, List.isPrefixOf, ih]
    · have h2 : c ≠ o := fun e => h e.symm
      simp [replaceAllFrom, List.isPrefixOf, ih, h, h2]

theorem replaceAll_strip (s : List Nat) :
    strings.ReplaceAll (strings.ReplaceAll s 0x0A [] []) 0x0D [] [] = strip s := by
  simp [strings.ReplaceAll, replaceAllFrom_single, strip, List.filter_filter, Bool.and_comm]



theorem good_iff (s : scanner) : Good s ↔ goodb s = true := by
  obtain ⟨st, et, ps, er, b⟩ := s
  cases er <;> cases et <;> simp [Good, goodb]

set_option maxHeartbeats 4000000 in
theorem run_core_aux (st : StepFn) (ps : List ParseState) (b1 b2 : Nat) (c : Nat) :
    let s : scanner := ⟨st, decide (st = .stateEndTop), ps, none, b1⟩
    let t : scanner := ⟨st, decide (st = .stateEndTop), ps, none, b2⟩
    (s.run c).2 = (t.run c).2 ∧ (s.run c).1.step = (t.run c).1.step ∧
    (s.run c).1.parseState = (t.run c).1.parseState ∧
    (s.run c).1.err.isNone = (t.run c).1.err.isNone ∧
    (st ≠ .stateError → goodb (s.run c).1 = (s.run c).1.err.isNone) ∧
    (st ≠ .stateError → errb (s.run c) = true) := by
  intro s t
  rcases ps with _ | ⟨p, rest⟩
  · cases st <;> refine ⟨?_, ?_, ?_, ?_, ?_, ?_⟩ <;>
      simp only [s, t, scanner.run, stateBeginValueOrEmpty, stateBeginValue, stateBeginStringOrEmpty,
        stateBeginString, stateEndValue, stateEndTop, stateInString, stateInStringEsc, stateHex,
        stateLit, stateNeg, state0, state1, stateDot, stateDot0, stateE, stateESign, stateE0,
        stateError, scanner.error, scanner.pushParseState, scanner.popParseState,
        apply_ite Prod.snd, apply_ite Prod.fst, apply_ite scanner.step, apply_ite scanner.parseState,
        apply_ite scanner.err, apply_ite Option.isNone, apply_ite goodb, apply_ite errb,
        Option.isNone_none, Option.isNone_some, reduceCtorEq, decide_False, decide_True] <;>
      first
      | rfl
      | simp [goodb, errb, apply_ite scanner.err, apply_ite scanner.step, apply_ite scanner.endTop]
  · cases p <;> cases st <;> refine ⟨?_, ?_, ?_, ?_, ?_, ?_⟩ <;>
      simp only [s, t, scanner.run, stateBeginValueOrEmpty, stateBeginValue, stateBeginStringOrEmpty,
        stateBeginString, stateEndValue, stateEndTop, stateInString, stateInStringEsc, stateHex,
        stateLit, stateNeg, state0, state1, stateDot, stateDot0, stateE, stateESign, stateE0,
        stateError, scanner.error, scanner.pushParseState, scanner.popParseState,
        apply_ite Prod.snd, apply_ite Prod.fst, apply_ite scanner.step, apply_ite scanner.parseState,
        apply_ite scanner.err, apply_ite Option.isNone, apply_ite goodb, apply_ite errb,
        Option.isNone_none, Option.isNone_some, reduceCtorEq, decide_False, decide_True] <;>
      first
      | rfl
      | simp [goodb, errb, apply_ite scanner.err, apply_ite scanner.step, apply_ite scanner.endTop]

theorem good_eq (s : scanner) (h : Good s) :
    s = ⟨s.step, decide (s.step = .stateEndTop), s.parseState, none, s.bytes⟩ := by
  obtain ⟨st, et, ps, er, b⟩ := s
  obtain ⟨h1, _, h3⟩ := h
  simp only at h1 h3
  subst h1
  cases et <;> simp_all

theorem run_core (s t : scanner) (c : Nat) (hs : Good s) (ht : Good t)
    (h1 : s.step = t.step) (h2 : s.parseState = t.parseState) :
    (s.run c).2 = (t.run c).2 ∧ (s.run c).1.step = (t.run c).1.step ∧
    (s.run c).1.parseState = (t.run c).1.parseState ∧
    ((s.run c).1.err = none ↔ (t.run c).1.err = none) := by
  rw [good_eq s hs, good_eq t ht, ← h1, ← h2]
  obtain ⟨a1, a2, a3, a4, -, -⟩ := run_core_aux s.step s.parseState s.bytes t.bytes c
  refine ⟨a1, a2, a3, ?_⟩
  simp only [← Option.isNone_iff_eq_none]
  rw [a4]

theorem good_run (s : scanner) (c : Nat) (hs : Good s) (h : (s.run c).1.err = none) :
    Good (s.run c).1 := by
  rw [good_eq s hs] at h ⊢
  obtain ⟨-, -, -, -, a5, -⟩ := run_core_aux s.step s.parseState s.bytes s.bytes c
  rw [good_iff, a5 hs.2.1]
  simpa using h

theorem run_err (s : scanner) (c : Nat) (hs : Good s) :
    ((s.run c).1.err = none ∧ (s.run c).2 ≠ scanError) ∨
    ((s.run c).1.err ≠ none ∧ (s.run c).1.step = .stateError) := by
  rw [good_eq s hs]
  obtain ⟨-, -, -, -, -, a6⟩ := run_core_aux s.step s.parseState s.bytes s.bytes c
  have := a6 hs.2.1
  simp only [errb, Bool.or_eq_true, Bool.and_eq_true, decide_eq_true_eq, Option.isNone_iff_eq_none,
    Bool.not_eq_true', ← Option.not_isSome, Bool.not_eq_false'] at this
  rcases this with ⟨h1, h2⟩ | ⟨h1, h2⟩
  · left; exact ⟨by simpa using h1, h2⟩
  · right; refine ⟨?_, h2⟩
    intro h; rw [h] at h1; simp at h1

theorem isSpace_iff (c : Nat) : isSpace c = true ↔ c = 0x20 ∨ c = 0x09 ∨ c = 0x0D ∨ c = 0x0A := by
  simp only [isSpace, Bool.and_eq_true, decide_eq_true_eq, Bool.or_eq_true, beq_iff_eq]
  omega

set_option maxHeartbeats 4000000 in
theorem sim_nl (s t : scanner) (c : Nat) (hc : c = 0x0A ∨ c = 0x0D) (h : Sim s t)
    (he : (s.run c).1.err = none) : Sim (s.run c).1 t ∧ scanSkipSpace ≤ (s.run c).2 := by
  obtain ⟨hs, ht, hps, hst⟩ := h
  have hg := good_run s c hs he
  refine ⟨⟨hg, ht, ?_, ?_⟩, ?_⟩ <;>
  · obtain ⟨st, et, ps, er, b⟩ := s
    obtain ⟨tst, tet, tps, ter, tb⟩ := t
    simp only at hps hst
    subst hps
    clear hg
    rcases hc with rfl | rfl <;> rcases ps with _ | ⟨p, rest⟩ <;> cases st <;>
      simp_all [Good, numEnd, scanner.run, stateBeginValueOrEmpty, stateBeginValue,
        stateBeginStringOrEmpty, stateBeginString, stateEndValue, stateEndTop, stateInString,
        stateInStringEsc, stateHex, stateLit, stateNeg, state0, state1, stateDot, stateDot0, stateE,
        stateESign, stateE0, stateError, scanner.error, scanner.pushParseState,
        scanner.popParseState, isSpace, isDigit, isDigit19, isHex, scanSkipSpace, scanEnd] <;>
      tauto

theorem end_ok (s : scanner) (c : Nat) (hs : Good s)
    (hst : s.step = .stateEndValue ∨ s.step = .stateEndTop) (he : (s.run c).1.err = none) :
    c = 0x20 ∨ c = 0x09 ∨ c = 0x0D ∨ c = 0x0A ∨ c = 0x3A ∨ c = 0x2C ∨ c = 0x7D ∨ c = 0x5D := by
  by_cases hsp : isSpace c = true
  · have := (isSpace_iff c).1 hsp
    omega
  · obtain ⟨st, et, ps, er, b⟩ := s
    simp only at hst
    rcases hst with rfl | rfl
    · rcases ps with _ | ⟨p, rest⟩
      · simp [scanner.run, stateEndValue, stateEndTop, scanner.error, hsp] at he
      · cases p <;>
          simp only [scanner.run, stateEndValue, scanner.error, hsp] at he <;>
          split_ifs at he <;> simp_all
    · simp [scanner.run, stateEndTop, scanner.error, hsp] at he

set_option maxHeartbeats 4000000 in
theorem sim_other (s t : scanner) (c : Nat) (h1 : c ≠ 0x0A) (h2 : c ≠ 0x0D) (h : Sim s t)
    (he : (s.run c).1.err = none) :
    Sim (s.run c).1 (t.run c).1 ∧ (t.run c).2 = (s.run c).2 := by
  obtain ⟨hs, ht, hps, hst⟩ := h
  have hg := good_run s c hs he
  rcases hst with hst | hst
  · obtain ⟨a1, a2, a3, a4⟩ := run_core t s c ht hs hst hps.symm
    exact ⟨⟨hg, good_run t c ht (a4.2 he), a3.symm, Or.inl a2⟩, a1⟩
  · have hc := end_ok s c hs (by tauto) he
    have hgt : (t.run c).1.err = none → Good (t.run c).1 := good_run t c ht
    obtain ⟨st, et, ps, er, b⟩ := s
    obtain ⟨tst, tet, tps, ter, tb⟩ := t
    simp only at hps hst
    subst hps
    have key : (scanner.run ⟨tst, tet, ps, ter, tb⟩ c).1.err = none ∧
        (scanner.run ⟨tst, tet, ps, ter, tb⟩ c).1.parseState = (scanner.run ⟨st, et, ps, er, b⟩ c).1.parseState ∧
        ((scanner.run ⟨tst, tet, ps, ter, tb⟩ c).1.step = (scanner.run ⟨st, et, ps, er, b⟩ c).1.step ∨
          ((scanner.run ⟨st, et, ps, er, b⟩ c).1.step = .stateEndTop ∧
            (scanner.run ⟨st, et, ps, er, b⟩ c).1.parseState = [] ∧
            (scanner.run ⟨tst, tet, ps, ter, tb⟩ c).1.step = .stateEndTop)) ∧
        (scanner.run ⟨tst, tet, ps, ter, tb⟩ c).2 = (scanner.run ⟨st, et, ps, er, b⟩ c).2 := by
      clear hg hgt
      rcases ps with _ | ⟨p, rest⟩ <;>
        rcases hc with rfl | rfl | rfl | rfl | rfl | rfl | rfl | rfl <;>
        rcases hst with ⟨rfl, hn | hn | hn | hn⟩ | ⟨rfl, hp0, (hn | hn | hn | hn) | hn⟩ <;>
        subst hn <;>
        simp_all [Good, scanner.run, stateEndValue, stateEndTop, state0, state1, stateDot0, stateE0,
          scanner.error, scanner.popParseState, isSpace, isDigit] <;>
        cases p <;>
        simp_all [Good, scanner.run, stateEndValue, stateEndTop, state0, state1, stateDot0, stateE0,
          scanner.error, scanner.popParseState, isSpace, isDigit] <;>
        by_cases hr : rest = [] <;> simp_all
    obtain ⟨k1, k2, k3, k4⟩ := key
    refine ⟨⟨hg, hgt k1, k2.symm, ?_⟩, k4⟩
    rcases k3 with k3 | ⟨k3, k5, k6⟩
    · exact Or.inl k3
    · left; rw [k3, k6]

set_option maxHeartbeats 4000000 in
theorem sim_eof (s t : scanner) (h : Sim s t) (he : s.eof = none) : t.eof = none := by
  obtain ⟨hs, ht, hps, hst⟩ := h
  obtain ⟨st, et, ps, er, b⟩ := s
  obtain ⟨tst, tet, tps, ter, tb⟩ := t
  simp only at hps hst
  subst hps
  rcases ps with _ | ⟨p, rest⟩ <;>
    rcases hst with rfl | ⟨rfl, hn | hn | hn | hn⟩ | ⟨rfl, hp0, (hn | hn | hn | hn) | hn⟩ <;>
    (try subst hn) <;> (try cases tst) <;>
    simp_all [Good, scanner.eof, scanner.run, stateBeginValueOrEmpty, stateBeginValue,
        stateBeginStringOrEmpty, stateBeginString, stateEndValue, stateEndTop, stateInString,
        stateInStringEsc, stateHex, stateLit, stateNeg, state0, state1, stateDot, stateDot0, stateE,
        stateESign, stateE0, stateError, scanner.error, scanner.pushParseState,
        scanner.popParseState, isSpace, isDigit, isDigit19, isHex]

theorem accepts_strip (cs : List Nat) : ∀ (s t : scanner), Sim s t → accepts s cs →
    accepts t (strip cs) := by
  induction cs with
  | nil => intro s t h ha; exact sim_eof s t h ha
  | cons c cs ih =>
    intro s t h ha
    obtain ⟨he, ha⟩ := ha
    by_cases hc : c = 0x0A ∨ c = 0x0D
    · rw [strip_cons_nl c cs hc]
      exact ih _ _ (sim_nl s t c hc h he).1 ha
    · have h1 : c ≠ 0x0A := fun e => hc (Or.inl e)
      have h2 : c ≠ 0x0D := fun e => hc (Or.inr e)
      rw [strip_cons_other c cs h1 h2]
      obtain ⟨hsim, _⟩ := sim_other s t c h1 h2 h he
      exact ⟨hsim.2.1.1, ih _ _ hsim ha⟩

theorem sim_refl (s : scanner) (h : Good s) : Sim s s := ⟨h, h, rfl, Or.inl rfl⟩

theorem good_bytes (s : scanner) (b : Nat) (h : Good s) : Good { s with bytes := b } := h

theorem checkValidFrom_err (cs : List Nat) (s : scanner) (h1 : s.err ≠ none)
    (h2 : s.step = .stateError) : checkValidFrom s cs ≠ none := by
  cases cs with
  | nil =>
    cases he : s.err with
    | none => exact absurd he h1
    | some e => simp [checkValidFrom, scanner.eof, he]
  | cons c cs =>
    have : ({ s with bytes := s.bytes + 1 }.run c) = ({ s with bytes := s.bytes + 1 }, scanError) := by
      simp [scanner.run, h2, stateError]
    simp [checkValidFrom, this, h1]

theorem checkValidFrom_iff (cs : List Nat) : ∀ (s t : scanner), Good s → Good t →
    t.step = s.step → s.parseState = t.parseState →
    (checkValidFrom s cs = none ↔ accepts t cs) := by
  induction cs with
  | nil =>
    intro s t hs ht h1 h2
    simp only [checkValidFrom, accepts]
    exact ⟨sim_eof s t ⟨hs, ht, h2, Or.inl h1⟩, sim_eof t s ⟨ht, hs, h2.symm, Or.inl h1.symm⟩⟩
  | cons c cs ih =>
    intro s t hs ht h1 h2
    have hb : Good { s with bytes := s.bytes + 1 } := good_bytes s _ hs
    obtain ⟨a1, a2, a3, a4⟩ := run_core { s with bytes := s.bytes + 1 } t c hb ht h1.symm h2
    simp only [checkValidFrom, accepts]
    rcases run_err _ c hb with ⟨e1, e2⟩ | ⟨e1, e2⟩
    · rw [if_neg e2]
      have e1t := a4.1 e1
      rw [ih _ _ (good_run _ c hb e1) (good_run t c ht e1t) a2.symm a3]
      simp [e1t]
    · have : ¬ (t.run c).1.err = none := fun h => e1 (a4.2 h)
      simp only [this, false_and, iff_false]
      split_ifs
      · exact e1
      · exact checkValidFrom_err cs _ e1 e2

theorem good_reset : Good scanner.reset := by simp [Good, scanner.reset]

theorem checkValid_iff (cs : List Nat) : checkValid cs = none ↔ accepts scanner.reset cs :=
  checkValidFrom_iff cs _ _ good_reset good_reset rfl rfl

theorem checkValid_strip (cs : List Nat) (h : checkValid cs = none) : checkValid (strip cs) = none :=
  (checkValid_iff _).2 (accepts_strip cs _ _ (sim_refl _ good_reset) ((checkValid_iff _).1 h))

/-- The bytes `E2`, `80`, `A8`, `A9` are accepted inside a string only, and leave
the scanner as it is. -/
theorem high_byte (s : scanner) (c : Nat) (hc : c = 0xE2 ∨ c = 0x80 ∨ c / 2 * 2 = 0xA8)
    (hs : Good s) (he : (s.run c).1.err = none) :
    s.step = .stateInString ∧ s.run c = (s, scanContinue) := by
  have hc2 : c = 0xE2 ∨ c = 0x80 ∨ c = 0xA8 ∨ c = 0xA9 := by omega
  obtain ⟨st, et, ps, er, b⟩ := s
  rcases hc2 with rfl | rfl | rfl | rfl <;> rcases ps with _ | ⟨p, rest⟩ <;> cases st <;>
    simp_all [Good, scanner.run, stateBeginValueOrEmpty, stateBeginValue,
        stateBeginStringOrEmpty, stateBeginString, stateEndValue, stateEndTop, stateInString,
        stateInStringEsc, stateHex, stateLit, stateNeg, state0, state1, stateDot, stateDot0, stateE,
        stateESign, stateE0, stateError, scanner.error, scanner.pushParseState,
        scanner.popParseState, isSpace, isDigit, isDigit19, isHex] <;>
    cases p <;> simp_all

/-- Inside a string no line feed or carriage return is accepted. -/
theorem inString_nl (s : scanner) (c : Nat) (h : s.step = .stateInString)
    (he : (s.run c).1.err = none) (hs : Good s) : c ≠ 0x0A ∧ c ≠ 0x0D := by
  obtain ⟨st, et, ps, er, b⟩ := s
  simp only at h
  subst h
  constructor <;> rintro rfl <;> simp_all [Good, scanner.run, stateInString, scanner.error]

theorem lineSep_strip (s : scanner) (cs : List Nat) (h : s.step = .stateInString) (hs : Good s)
    (ha : accepts s cs) : lineSep (strip cs) = lineSep cs := by
  cases cs with
  | nil => rfl
  | cons c1 cs1 =>
    obtain ⟨he1, ha1⟩ := ha
    obtain ⟨n1, n2⟩ := inString_nl s c1 h he1 hs
    rw [strip_cons_other c1 cs1 n1 n2]
    by_cases h80 : c1 = 0x80
    · obtain ⟨-, hr⟩ := high_byte s c1 (Or.inr (Or.inl h80)) hs he1
      rw [hr] at ha1
      cases cs1 with
      | nil => rfl
      | cons c2 cs2 =>
        obtain ⟨he2, -⟩ := ha1
        obtain ⟨m1, m2⟩ := inString_nl s c2 h he2 hs
        rw [strip_cons_other c2 cs2 m1 m2]
        rfl
    · cases cs1 with
      | nil => simp [strip, lineSep]
      | cons c2 cs2 =>
        cases hh : strip (c2 :: cs2) <;> simp [lineSep, h80]

theorem lineSep_some (cs : List Nat) (x : Nat) (h : lineSep cs = some x) :
    ∃ rest, cs = 0x80 :: x :: rest ∧ x / 2 * 2 = 0xA8 := by
  match cs, h with
  | c1 :: c2 :: rest, h =>
    simp only [lineSep] at h
    split_ifs at h with hc
    simp only [Option.some.injEq] at h
    subst h
    exact ⟨rest, by rw [hc.1], hc.2⟩

theorem compact_strip (e : Bool) (cs : List Nat) : ∀ (s t : scanner) (k : Nat), Sim s t →
    accepts s cs → Window k cs → compactFrom e s k cs = compactFrom e t k (strip cs) := by
  induction cs with
  | nil =>
    intro s t k h ha _
    have h1 : s.eof = none := ha
    have h2 : t.eof = none := sim_eof s t h ha
    simp [compactFrom, strip, h1, h2]
  | cons c cs ih =>
    intro s t k h ha hw
    obtain ⟨he, ha⟩ := ha
    have hne : (s.run c).2 ≠ scanError := by
      rcases run_err s c h.1 with ⟨_, e2⟩ | ⟨e1, _⟩
      · exact e2
      · exact absurd he e1
    by_cases hc : c = 0x0A ∨ c = 0x0D
    · -- a line break: dropped by both
      obtain ⟨hsim, hop⟩ := sim_nl s t c hc h he
      have hk : k = 0 := by
        rcases hw with hk | ⟨_, x, rest, hx, hx2⟩ | ⟨_, x, rest, hx, hx2⟩
        · exact hk
        · simp only [List.cons.injEq] at hx; omega
        · simp only [List.cons.injEq] at hx; omega
      subst hk
      rw [strip_cons_nl c cs hc, ← ih _ _ 0 hsim ha (Or.inl rfl)]
      have c1 : (c == 0x3C || c == 0x3E || c == 0x26) = false := by
        rcases hc with rfl | rfl <;> rfl
      have c2 : (c == 0xE2) = false := by
        rcases hc with rfl | rfl <;> rfl
      simp [compactFrom, c1, c2, hne, hop]
    · -- any other byte: handled alike by both
      have h1 : c ≠ 0x0A := fun e => hc (Or.inl e)
      have h2 : c ≠ 0x0D := fun e => hc (Or.inr e)
      obtain ⟨hsim, hop⟩ := sim_other s t c h1 h2 h he
      have hla : (if e && c == 0xE2 then lineSep (strip cs) else none) =
          (if e && c == 0xE2 then lineSep cs else none) := by
        by_cases hE : (e && c == 0xE2) = true
        · simp only [hE, if_true]
          have hcE : c = 0xE2 := by
            simp only [Bool.and_eq_true, beq_iff_eq] at hE
            exact hE.2
          obtain ⟨hst, hr⟩ := high_byte s c (Or.inl hcE) h.1 he
          rw [hr] at ha
          exact lineSep_strip s cs hst h.1 ha
        · simp [hE]
      have hw2 : Window ((if scanSkipSpace ≤ (s.run c).2 then 1
          else if (if e && c == 0xE2 then lineSep cs else none).isSome then 3
          else if (e && (c == 0x3C || c == 0x3E || c == 0x26)) = true then 1 else k) - 1) cs := by
        cases hl : (if e && c == 0xE2 then lineSep cs else none) with
        | some x =>
          have hE : (e && c == 0xE2) = true := by
            by_contra hE
            simp [hE] at hl
          simp only [hE, if_true] at hl
          have hcE : c = 0xE2 := by
            simp only [Bool.and_eq_true, beq_iff_eq] at hE
            exact hE.2
          obtain ⟨-, hr⟩ := high_byte s c (Or.inl hcE) h.1 he
          obtain ⟨rest, hcs, hx⟩ := lineSep_some cs x hl
          simp only [hr, scanContinue, scanSkipSpace, Option.isSome_some, if_true]
          exact Or.inr (Or.inr ⟨rfl, x, rest, hcs, hx⟩)
        | none =>
          simp only [Option.isSome_none, Bool.false_eq_true, if_false]
          split_ifs
          · exact Or.inl rfl
          · exact Or.inl rfl
          · rcases hw with hk | ⟨hk, x, rest, hx, hx2⟩ | ⟨hk, x, rest, hx, hx2⟩
            · exact Or.inl (by omega)
            · exact Or.inl (by omega)
            · simp only [List.cons.injEq] at hx
              exact Or.inr (Or.inl ⟨by omega, x, rest, hx.2, hx2⟩)
      rw [strip_cons_other c cs h1 h2]
      simp only [compactFrom, hla, hop, if_neg hne]
      rw [ih _ _ _ hsim ha hw2]

theorem compact_isSome (e : Bool) (cs : List Nat) : ∀ (s : scanner) (k : Nat), Good s →
    accepts s cs → ∃ out, compactFrom e s k cs = some out := by
  induction cs with
  | nil =>
    intro s k _ ha
    have h1 : s.eof = none := ha
    exact ⟨[], by simp [compactFrom, h1]⟩
  | cons c cs ih =>
    intro s k hs ha
    obtain ⟨he, ha⟩ := ha
    have hne : (s.run c).2 ≠ scanError := by
      rcases run_err s c hs with ⟨_, e2⟩ | ⟨e1, _⟩
      · exact e2
      · exact absurd he e1
    obtain ⟨out, ho⟩ := ih (s.run c).1 _ (good_run s c hs he) ha
    simp only [compactFrom, if_neg hne]
    rw [ho]
    exact ⟨_, rfl⟩

/-- A space that is accepted on the way to a complete value is skipped, and the
value was complete before it. -/
theorem space_back (s : scanner) (c : Nat) (hc : isSpace c = true) (hs : Good s)
    (he : (s.run c).1.err = none) (hf : (s.run c).1.eof = none) :
    s.eof = none ∧ scanSkipSpace ≤ (s.run c).2 := by
  have hc2 := (isSpace_iff c).1 hc
  obtain ⟨st, et, ps, er, b⟩ := s
  rcases hc2 with rfl | rfl | rfl | rfl <;> rcases ps with _ | ⟨p, rest⟩ <;> cases st <;>
    simp_all [Good, scanner.eof, scanner.run, stateBeginValueOrEmpty, stateBeginValue,
        stateBeginStringOrEmpty, stateBeginString, stateEndValue, stateEndTop, stateInString,
        stateInStringEsc, stateHex, stateLit, stateNeg, state0, state1, stateDot, stateDot0, stateE,
        stateESign, stateE0, stateError, scanner.error, scanner.pushParseState,
        scanner.popParseState, isSpace, isDigit, isDigit19, isHex, scanSkipSpace, scanEnd]

theorem space_plain (e : Bool) (c : Nat) (hc : isSpace c = true) :
    (e && (c == 0x3C || c == 0x3E || c == 0x26)) = false ∧ (e && c == 0xE2) = false := by
  have hc2 := (isSpace_iff c).1 hc
  rcases hc2 with rfl | rfl | rfl | rfl <;> simp

theorem compact_spaces (e : Bool) (ws : List Nat) (hws : ∀ c ∈ ws, isSpace c = true) :
    ∀ (s : scanner) (k : Nat), Good s → accepts s ws →
      compactFrom e s k ws = some [] ∧ s.eof = none := by
  induction ws with
  | nil =>
    intro s k _ ha
    have h1 : s.eof = none := ha
    exact ⟨by simp [compactFrom, h1], h1⟩
  | cons c ws ih =>
    intro s k hs ha
    obtain ⟨he, ha⟩ := ha
    have hc : isSpace c = true := hws c (List.mem_cons_self _ _)
    obtain ⟨i1, i2⟩ := ih (fun x hx => hws x (List.mem_cons_of_mem _ hx)) (s.run c).1 0
      (good_run s c hs he) ha
    obtain ⟨b1, b2⟩ := space_back s c hc hs he i2
    have hne : (s.run c).2 ≠ scanError := by
      rcases run_err s c hs with ⟨_, e2⟩ | ⟨e1, _⟩
      · exact e2
      · exact absurd he e1
    obtain ⟨p1, p2⟩ := space_plain e c hc
    refine ⟨?_, b1⟩
    simp only [compactFrom, if_neg hne, p1, p2, if_pos b2]
    simp [i1]

theorem lineSep_append_spaces (z ws : List Nat) (hws : ∀ c ∈ ws, isSpace c = true) :
    lineSep (z ++ ws) = lineSep z := by
  match z with
  | _ :: _ :: _ => rfl
  | [b] =>
    cases ws with
    | nil => rfl
    | cons w ws =>
      have hw := (isSpace_iff w).1 (hws w (List.mem_cons_self _ _))
      have : ¬ w / 2 * 2 = 0xA8 := by omega
      simp [lineSep, this]
  | [] =>
    match ws, hws with
    | [], _ => rfl
    | [_], _ => rfl
    | w1 :: w2 :: rest, hws =>
      have hw := (isSpace_iff w1).1 (hws w1 (List.mem_cons_self _ _))
      have : ¬ w1 = 0x80 := by omega
      simp [lineSep, this]

theorem compact_trailing (e : Bool) (ws : List Nat) (hws : ∀ c ∈ ws, isSpace c = true)
    (z : List Nat) : ∀ (s : scanner) (k : Nat), Good s → accepts s (z ++ ws) →
      compactFrom e s k (z ++ ws) = compactFrom e s k z := by
  induction z with
  | nil =>
    intro s k hs ha
    obtain ⟨h1, h2⟩ := compact_spaces e ws hws s k hs ha
    simp only [List.nil_append, h1]
    simp [compactFrom, h2]
  | cons c z ih =>
    intro s k hs ha
    obtain ⟨he, ha⟩ := ha
    have hne : (s.run c).2 ≠ scanError := by
      rcases run_err s c hs with ⟨_, e2⟩ | ⟨e1, _⟩
      · exact e2
      · exact absurd he e1
    have ha2 : accepts (s.run c).1 (z ++ ws) := ha
    simp only [List.cons_append, compactFrom, if_neg hne, List.append_eq,
      lineSep_append_spaces z ws hws]
    rw [ih _ _ (good_run s c hs he) ha2]

theorem reset_space (c : Nat) (hc : isSpace c = true) :
    scanner.reset.run c = (scanner.reset, scanSkipSpace) := by
  simp [scanner.run, scanner.reset, stateBeginValue, hc]

theorem accepts_leading (ws y : List Nat) (hws : ∀ c ∈ ws, isSpace c = true) :
    accepts scanner.reset (ws ++ y) ↔ accepts scanner.reset y := by
  induction ws with
  | nil => rfl
  | cons c ws ih =>
    have hc : isSpace c = true := hws c (List.mem_cons_self _ _)
    simp only [List.cons_append, accepts, reset_space c hc, List.append_eq]
    rw [ih (fun x hx => hws x (List.mem_cons_of_mem _ hx))]
    simp [scanner.reset]

theorem compact_leading (e : Bool) (ws y : List Nat) (hws : ∀ c ∈ ws, isSpace c = true) :
    compactFrom e scanner.reset 0 (ws ++ y) = compactFrom e scanner.reset 0 y := by
  induction ws with
  | nil => rfl
  | cons c ws ih =>
    have hc : isSpace c = true := hws c (List.mem_cons_self _ _)
    obtain ⟨p1, p2⟩ := space_plain e c hc
    simp only [List.cons_append, compactFrom, reset_space c hc, p1, p2, List.append_eq]
    have hk : (if scanSkipSpace ≤ scanSkipSpace then 1 else 0) - 1 = 0 := by decide
    simp only [Bool.false_eq_true, if_false, Option.isSome_none, hk]
    rw [ih (fun x hx => hws x (List.mem_cons_of_mem _ hx))]
    cases compactFrom e scanner.reset 0 y <;> simp [scanSkipSpace, scanError]

theorem trimSpace_split (x : List Nat) : ∃ ws1 ws2, (∀ c ∈ ws1, isSpace c = true) ∧
    (∀ c ∈ ws2, isSpace c = true) ∧ x = ws1 ++ (trimSpace x ++ ws2) := by
  refine ⟨x.takeWhile isSpace, ((x.dropWhile isSpace).reverse.takeWhile isSpace).reverse, ?_, ?_, ?_⟩
  · intro c hc
    exact List.mem_takeWhile_imp hc
  · intro c hc
    exact List.mem_takeWhile_imp (List.mem_reverse.1 hc)
  · have h1 := List.takeWhile_append_dropWhile isSpace x
    have h2 := List.takeWhile_append_dropWhile isSpace (x.dropWhile isSpace).reverse
    have h3 : x.dropWhile isSpace = trimSpace x ++
        ((x.dropWhile isSpace).reverse.takeWhile isSpace).reverse := by
      have := congrArg List.reverse h2
      simp only [List.reverse_append, List.reverse_reverse] at this
      exact this.symm
    rw [← h3, h1]

theorem compact_trimSpace (e : Bool) (x : List Nat) (h : accepts scanner.reset x) :
    compact e (trimSpace x) = compact e x := by
  obtain ⟨ws1, ws2, h1, h2, h3⟩ := trimSpace_split x
  have ha : accepts scanner.reset (trimSpace x ++ ws2) := by
    rw [h3] at h
    exact (accepts_leading ws1 _ h1).1 h
  unfold compact
  conv_rhs => rw [h3]
  rw [compact_leading e ws1 _ h1, compact_trailing e ws2 h2 _ _ _ good_reset ha]

theorem compact_null : compact true (bytes "null") = some (bytes "null") := by decide

theorem checkValid_nil : checkValid [] = some ⟨0⟩ := by decide

/-- `c.JSON` on a context nothing was written to yet: the status line is sent. -/
theorem JSON_fresh (st : Nat) (snt : Option Nat) (bd : List Nat) (ab : Bool) (er code : Nat)
    (obj : JSONObj) (b : List Nat) (hm : json.Marshal obj = some b)
    (hcode : code = 200 ∨ code = 500) :
    Context.JSON ⟨⟨st, -1, snt, bd⟩, ab, er⟩ code obj =
      ⟨⟨code, ((b.length : Nat) : Int), some code, bd ++ b⟩, ab, er⟩ := by
  rcases hcode with rfl | rfl <;>
    by_cases h : st = 200 <;> by_cases h' : st = 500 <;>
    simp [Context.JSON, bodyAllowedForStatus, hm, responseWriter.Write, responseWriter.WriteHeader,
      responseWriter.WriteHeaderNow, responseWriter.Written, h, h']

/-- `c.JSON` once something was written: the body grows, the status stays. -/
theorem JSON_written (st k : Nat) (snt : Option Nat) (bd : List Nat) (ab : Bool) (er code : Nat)
    (obj : JSONObj) (b : List Nat) (hm : json.Marshal obj = some b)
    (hcode : code = 200 ∨ code = 500) :
    Context.JSON ⟨⟨st, ((k : Nat) : Int), snt, bd⟩, ab, er⟩ code obj =
      ⟨⟨st, ((k + b.length : Nat) : Int), snt, bd ++ b⟩, ab, er⟩ := by
  have hk : ¬ ((k : Int) = -1) := by omega
  rcases hcode with rfl | rfl <;>
    by_cases h : st = 200 <;> by_cases h' : st = 500 <;>
    simp [Context.JSON, bodyAllowedForStatus, hm, responseWriter.Write, responseWriter.WriteHeader,
      responseWriter.WriteHeaderNow, responseWriter.Written, h, h', hk]

/-- The final `WriteHeaderNow` of gin changes nothing once something was written. -/
theorem WriteHeaderNow_written (st k : Nat) (snt : Option Nat) (bd : List Nat) :
    responseWriter.WriteHeaderNow ⟨st, ((k : Nat) : Int), snt, bd⟩ =
      ⟨st, ((k : Nat) : Int), snt, bd⟩ := by
  have hk : ¬ ((k : Int) = -1) := by omega
  simp [responseWriter.WriteHeaderNow, responseWriter.Written, hk]

theorem marshal_path (op : String) (errno : Nat) :
    json.Marshal (.error (.PathError op "body.txt" errno)) = some (pathPayload op errno) := rfl

theorem marshal_invalid : json.Marshal (.error .ErrInvalid) = some (bytes "\x7b\x7d") := rfl

theorem marshal_offset (e : SyntaxError) :
    json.Marshal (.error (.Syntax e)) =
      some (bytes "\x7b\"Offset\":" ++ decimal e.Offset ++ bytes "\x7d") := rfl

theorem marshal_nil : json.Marshal (.raw none) = some (bytes "null") := compact_null

theorem strip_nil : strip [] = [] := rfl

/-- Marshalling the raw message of a valid stripped document gives the compact
form of the stripped document. -/
theorem marshal_raw (data : List Nat) (h : checkValid (strip data) = none) :
    ∃ body, compact true (strip data) = some body ∧
      json.Marshal (.raw (some (trimSpace (strip data)))) = some body := by
  have ha := (checkValid_iff _).1 h
  obtain ⟨body, hb⟩ := compact_isSome true (strip data) scanner.reset 0 good_reset ha
  refine ⟨body, hb, ?_⟩
  show compact true (trimSpace (strip data)) = some body
  rw [compact_trimSpace true _ ha]
  exact hb

theorem Written_cast (st k : Nat) (snt : Option Nat) (bd : List Nat) :
    responseWriter.Written ⟨st, ((k : Nat) : Int), snt, bd⟩ = true := by
  have hk : ¬ ((k : Int) = -1) := by omega
  simp [responseWriter.Written, hk]

/-- The handler when `body.txt` cannot be opened: four writes, three log lines. -/
theorem handle_missing (errno n : Nat) :
    ∃ k : Nat, Server.getBody (fresh ⟨.missing errno, n⟩) =
      { c := ⟨⟨500, (k : Int), some 500, pathPayload "open" errno ++ bytes "\x7b\x7d" ++
          bytes "\x7b\"Offset\":0\x7d" ++ bytes "null"⟩, true, 0⟩,
        world := ⟨.missing errno, n⟩,
        log := ["error opening file body.txt", "error reading file body.txt",
          "error unmarshal data body.txt"] } := by
  have e0 : (bytes "\x7b\"Offset\":" ++ decimal 0 ++ bytes "\x7d") = bytes "\x7b\"Offset\":0\x7d" := by
    decide
  simp only [fresh, Server.getBody, os.Open, io.ReadAll, File.Close, onError,
    Context.AbortWithStatusJSON, json.Unmarshal, replaceAll_strip, strip_nil,
    checkValid_nil, responseWriter.reset, Option.map]
  rw [JSON_fresh _ _ _ _ _ _ _ _ (marshal_path "open" errno) (Or.inr rfl),
    JSON_written _ _ _ _ _ _ _ _ _ marshal_invalid (Or.inr rfl),
    JSON_written _ _ _ _ _ _ _ _ _ (marshal_offset ⟨0⟩) (Or.inr rfl),
    JSON_written _ _ _ _ _ _ _ _ _ marshal_nil (Or.inl rfl)]
  simp only [e0, List.nil_append, List.append_assoc]
  exact ⟨_, rfl⟩

/-- The handler on a readable file whose stripped text is not JSON. -/
theorem handle_regular_invalid (data : List Nat) (n : Nat) (e : SyntaxError)
    (h : checkValid (strip data) = some e) :
    ∃ k : Nat, Server.getBody (fresh ⟨.regular data, n⟩) =
      { c := ⟨⟨500, (k : Int), some 500, syntaxPayload e ++ bytes "null"⟩, true, 0⟩,
        world := ⟨.regular data, n⟩,
        log := ["error unmarshal data body.txt"] } := by
  simp only [fresh, Server.getBody, os.Open, io.ReadAll, File.Close, onError,
    Context.AbortWithStatusJSON, json.Unmarshal, replaceAll_strip, h, responseWriter.reset,
    Option.map]
  rw [JSON_fresh _ _ _ _ _ _ _ _ (marshal_offset e) (Or.inr rfl),
    JSON_written _ _ _ _ _ _ _ _ _ marshal_nil (Or.inl rfl)]
  simp only [List.nil_append, syntaxPayload, Nat.add_sub_cancel]
  exact ⟨_, rfl⟩

/-- The handler on a readable file whose stripped text is JSON. -/
theorem handle_regular_valid (data : List Nat) (n : Nat) (h : checkValid (strip data) = none) :
    ∃ (k : Nat) (body : List Nat), compact true (strip data) = some body ∧
      Server.getBody (fresh ⟨.regular data, n⟩) =
        { c := ⟨⟨200, (k : Int), some 200, body⟩, false, 0⟩,
          world := ⟨.regular data, n⟩,
          log := [] } := by
  obtain ⟨body, hb, hm⟩ := marshal_raw data h
  simp only [fresh, Server.getBody, os.Open, io.ReadAll, File.Close, onError,
    json.Unmarshal, replaceAll_strip, h, responseWriter.reset, Option.map]
  rw [JSON_fresh _ _ _ _ _ _ _ _ hm (Or.inl rfl)]
  simp only [List.nil_append, Nat.add_sub_cancel]
  exact ⟨_, body, hb, rfl⟩

/-- The handler when reading fails after delivering `data`, the text read so far
not being JSON once stripped. -/
theorem handle_failing_invalid (data : List Nat) (errno n : Nat) (e : SyntaxError)
    (h : checkValid (strip data) = some e) :
    ∃ k : Nat, Server.getBody (fresh ⟨.failing data errno, n⟩) =
      { c := ⟨⟨500, (k : Int), some 500,
          pathPayload "read" errno ++ syntaxPayload e ++ bytes "null"⟩, true, 0⟩,
        world := ⟨.failing data errno, n⟩,
        log := ["error reading file body.txt", "error unmarshal data body.txt"] } := by
  simp only [fresh, Server.getBody, os.Open, io.ReadAll, File.Close, onError,
    Context.AbortWithStatusJSON, json.Unmarshal, replaceAll_strip, h, responseWriter.reset,
    Option.map]
  rw [JSON_fresh _ _ _ _ _ _ _ _ (marshal_path "read" errno) (Or.inr rfl),
    JSON_written _ _ _ _ _ _ _ _ _ (marshal_offset e) (Or.inr rfl),
    JSON_written _ _ _ _ _ _ _ _ _ marshal_nil (Or.inl rfl)]
  simp only [List.nil_append, syntaxPayload, Nat.add_sub_cancel, List.append_assoc]
  exact ⟨_, rfl⟩

/-- The handler when reading fails after delivering `data`, the text read so far
being JSON once stripped. -/
theorem handle_failing_valid (data : List Nat) (errno n : Nat)
    (h : checkValid (strip data) = none) :
    ∃ (k : Nat) (body : List Nat), compact true (strip data) = some body ∧
      Server.getBody (fresh ⟨.failing data errno, n⟩) =
        { c := ⟨⟨500, (k : Int), some 500, pathPayload "read" errno ++ body⟩, true, 0⟩,
          world := ⟨.failing data errno, n⟩,
          log := ["error reading file body.txt"] } := by
  obtain ⟨body, hb, hm⟩ := marshal_raw data h
  simp only [fresh, Server.getBody, os.Open, io.ReadAll, File.Close, onError,
    Context.AbortWithStatusJSON, json.Unmarshal, replaceAll_strip, h, responseWriter.reset,
    Option.map]
  rw [JSON_fresh _ _ _ _ _ _ _ _ (marshal_path "read" errno) (Or.inr rfl),
    JSON_written _ _ _ _ _ _ _ _ _ hm (Or.inl rfl)]
  simp only [List.nil_append, Nat.add_sub_cancel]
  exact ⟨_, body, hb, rfl⟩

/-- What `serve` returns once the handler has written something. -/
theorem serve_of_handle (w w1 : World) (st k : Nat) (bd : List Nat) (ab : Bool) (l : List String)
    (h : Server.getBody (fresh w) = { c := ⟨⟨st, (k : Int), some st, bd⟩, ab, 0⟩, world := w1, log := l }) :
    (serve w).world = w1 ∧ (serve w).log = l ∧ (serve w).response = ⟨st, bd⟩ ∧
    (serve w).c.Writer.sent = some st ∧ (Server.getBody (fresh w)).c.Writer.Written = true := by
  simp only [serve, h, WriteHeaderNow_written, Run.response, Option.getD, Written_cast, and_self]

/-- The response to a readable file is a function of its stripped text. -/
theorem serve_regular_strip (d1 d2 : List Nat) (n1 n2 : Nat) (h : strip d1 = strip d2) :
    (serve ⟨.regular d1, n1⟩).response = (serve ⟨.regular d2, n2⟩).response ∧
    (serve ⟨.regular d1, n1⟩).log = (serve ⟨.regular d2, n2⟩).log := by
  cases hv : checkValid (strip d1) with
  | some e =>
    obtain ⟨k1, h1⟩ := handle_regular_invalid d1 n1 e hv
    obtain ⟨k2, h2⟩ := handle_regular_invalid d2 n2 e (h ▸ hv)
    obtain ⟨-, a2, a3, -, -⟩ := serve_of_handle _ _ _ _ _ _ _ h1
    obtain ⟨-, b2, b3, -, -⟩ := serve_of_handle _ _ _ _ _ _ _ h2
    rw [a2, a3, b2, b3]
    exact ⟨rfl, rfl⟩
  | none =>
    obtain ⟨k1, body1, c1, h1⟩ := handle_regular_valid d1 n1 hv
    obtain ⟨k2, body2, c2, h2⟩ := handle_regular_valid d2 n2 (h ▸ hv)
    obtain ⟨-, a2, a3, -, -⟩ := serve_of_handle _ _ _ _ _ _ _ h1
    obtain ⟨-, b2, b3, -, -⟩ := serve_of_handle _ _ _ _ _ _ _ h2
    rw [h, c2] at c1
    cases c1
    rw [a2, a3, b2, b3]
    exact ⟨rfl, rfl⟩

/-- Every run of the handler: the world it leaves, the status it sent, and that
it wrote. -/
theorem serve_cases (f : FileState) (n : Nat) :
    (serve ⟨f, n⟩).world = ⟨f, n⟩ ∧
    (Server.getBody (fresh ⟨f, n⟩)).c.Writer.Written = true ∧
    (serve ⟨f, n⟩).response = (serve ⟨f, 0⟩).response ∧
    (serve ⟨f, n⟩).log = (serve ⟨f, 0⟩).log ∧
    (serve ⟨f, n⟩).c.Writer.sent = some (serve ⟨f, n⟩).response.status ∧
    (((serve ⟨f, n⟩).response.status = 200 ∧ ∃ data, f = .regular data ∧
        checkValid (strip data) = none) ∨
     ((serve ⟨f, n⟩).response.status = 500 ∧ ¬ ∃ data, f = .regular data ∧
        checkValid (strip data) = none)) := by
  cases f with
  | missing errno =>
    obtain ⟨k1, h1⟩ := handle_missing errno n
    obtain ⟨k2, h2⟩ := handle_missing errno 0
    obtain ⟨a1, a2, a3, a4, a5⟩ := serve_of_handle _ _ _ _ _ _ _ h1
    obtain ⟨b1, b2, b3, b4, b5⟩ := serve_of_handle _ _ _ _ _ _ _ h2
    refine ⟨a1, a5, by rw [a3, b3], by rw [a2, b2], by rw [a4, a3], Or.inr ⟨by rw [a3], ?_⟩⟩
    rintro ⟨data, hd, -⟩
    cases hd
  | failing data errno =>
    cases hv : checkValid (strip data) with
    | some e =>
      obtain ⟨k1, h1⟩ := handle_failing_invalid data errno n e hv
      obtain ⟨k2, h2⟩ := handle_failing_invalid data errno 0 e hv
      obtain ⟨a1, a2, a3, a4, a5⟩ := serve_of_handle _ _ _ _ _ _ _ h1
      obtain ⟨b1, b2, b3, b4, b5⟩ := serve_of_handle _ _ _ _ _ _ _ h2
      refine ⟨a1, a5, by rw [a3, b3], by rw [a2, b2], by rw [a4, a3], Or.inr ⟨by rw [a3], ?_⟩⟩
      rintro ⟨data, hd, -⟩
      cases hd
    | none =>
      obtain ⟨k1, body1, c1, h1⟩ := handle_failing_valid data errno n hv
      obtain ⟨k2, body2, c2, h2⟩ := handle_failing_valid data errno 0 hv
      obtain ⟨a1, a2, a3, a4, a5⟩ := serve_of_handle _ _ _ _ _ _ _ h1
      obtain ⟨b1, b2, b3, b4, b5⟩ := serve_of_handle _ _ _ _ _ _ _ h2
      rw [c2] at c1
      cases c1
      refine ⟨a1, a5, by rw [a3, b3], by rw [a2, b2], by rw [a4, a3], Or.inr ⟨by rw [a3], ?_⟩⟩
      rintro ⟨data, hd, -⟩
      cases hd
  | regular data =>
    obtain ⟨r1, r2⟩ := serve_regular_strip data data n 0 rfl
    cases hv : checkValid (strip data) with
    | some e =>
      obtain ⟨k1, h1⟩ := handle_regular_invalid data n e hv
      obtain ⟨a1, a2, a3, a4, a5⟩ := serve_of_handle _ _ _ _ _ _ _ h1
      refine ⟨a1, a5, r1, r2, by rw [a4, a3], Or.inr ⟨by rw [a3], ?_⟩⟩
      rintro ⟨d, hd, hd2⟩
      cases hd
      rw [hv] at hd2
      cases hd2
    | none =>
      obtain ⟨k1, body1, c1, h1⟩ := handle_regular_valid data n hv
      obtain ⟨a1, a2, a3, a4, a5⟩ := serve_of_handle _ _ _ _ _ _ _ h1
      exact ⟨a1, a5, r1, r2, by rw [a4, a3], Or.inl ⟨by rw [a3], data, rfl, hv⟩⟩

/-! ## Well-formed documents and the scanner -/

theorem nested_value (n : Nat) : Derives .value (n + 1) (nested (n + 1)) := by
  induction n with
  | zero => exact Derives.arrayEmpty 0 [] (by intro c hc; cases hc)
  | succ n ih =>
    have h := Derives.array (n + 1) _
      (Derives.element (n + 1) [] _ [] (by intro c hc; cases hc) ih (by intro c hc; cases hc))
    have e : nested (n + 1 + 1) = 0x5B :: (([] ++ (nested (n + 1) ++ [])) ++ [0x5D]) := by
      simp only [nested, List.nil_append, List.append_nil, List.append_assoc]
      rw [List.replicate_succ, List.replicate_succ' (n + 1) 0x5D]
      simp
    rw [e]
    exact h

theorem nested_wellFormed (n : Nat) : WellFormed (nested (n + 1)) :=
  ⟨n + 1, [], _, [], (fun c hc => by cases hc), nested_value n, (fun c hc => by cases hc), by simp⟩

theorem strip_nested (n : Nat) : strip (nested n) = nested n := by
  simp only [strip, nested, List.filter_append]
  congr 1 <;>
  · rw [List.filter_eq_self]
    intro c hc
    rw [List.eq_of_mem_replicate hc]
    rfl

theorem run_open (st : StepFn) (hst : st = .stateBeginValue ∨ st = .stateBeginValueOrEmpty)
    (et : Bool) (ps : List ParseState) (b : Nat)
    (h : ps.length + 1 ≤ maxNestingDepth) :
    scanner.run ⟨st, et, ps, none, b⟩ 0x5B =
      (⟨.stateBeginValueOrEmpty, et, .parseArrayValue :: ps, none, b⟩, scanBeginArray) := by
  rcases hst with rfl | rfl <;>
    simp [scanner.run, stateBeginValueOrEmpty, stateBeginValue, isSpace, scanner.pushParseState, h]

theorem run_open_over (st : StepFn) (hst : st = .stateBeginValue ∨ st = .stateBeginValueOrEmpty)
    (et : Bool) (ps : List ParseState) (b : Nat)
    (h : ¬ ps.length + 1 ≤ maxNestingDepth) :
    scanner.run ⟨st, et, ps, none, b⟩ 0x5B =
      (⟨.stateError, et, .parseArrayValue :: ps, some ⟨b⟩, b⟩, scanError) := by
  rcases hst with rfl | rfl <;>
    simp [scanner.run, stateBeginValueOrEmpty, stateBeginValue, isSpace, scanner.pushParseState,
      scanner.error, h]

/-- Opening brackets that fit under the nesting limit are pushed one by one. -/
theorem open_brackets (rest : List Nat) (n : Nat) : ∀ (st : StepFn) (ps : List ParseState)
    (et : Bool) (b : Nat), st = .stateBeginValue ∨ st = .stateBeginValueOrEmpty →
    ps.length + (n + 1) ≤ maxNestingDepth →
    checkValidFrom ⟨st, et, ps, none, b⟩ (List.replicate (n + 1) 0x5B ++ rest) =
      checkValidFrom ⟨.stateBeginValueOrEmpty, et,
        List.replicate (n + 1) .parseArrayValue ++ ps, none, b + (n + 1)⟩ rest := by
  induction n with
  | zero =>
    intro st ps et b hst h
    simp only [List.replicate, List.cons_append, List.nil_append, checkValidFrom,
      run_open st hst et ps (b + 1) h]
    rfl
  | succ n ih =>
    intro st ps et b hst h
    have h1 : ps.length + 1 ≤ maxNestingDepth := by omega
    have h2 : (ParseState.parseArrayValue :: ps).length + (n + 1) ≤ maxNestingDepth := by
      simp only [List.length_cons]; omega
    rw [List.replicate_succ, List.cons_append, checkValidFrom]
    simp only [run_open st hst et ps (b + 1) h1]
    rw [if_neg (by decide), ih _ _ _ _ (Or.inr rfl) h2]
    have e1 : List.replicate (n + 1) ParseState.parseArrayValue ++ ParseState.parseArrayValue :: ps =
        List.replicate (n + 1 + 1) ParseState.parseArrayValue ++ ps := by
      rw [List.replicate_succ' (n + 1), List.append_assoc]; rfl
    have e2 : b + 1 + (n + 1) = b + (n + 1 + 1) := by omega
    rw [e1, e2]

/-- One opening bracket more than the nesting limit is a syntax error at that byte. -/
theorem checkValid_nested_over (n : Nat) (hn : n = maxNestingDepth) :
    checkValid (nested (n + 1)) = some ⟨n + 1⟩ := by
  have hpos : 0 < maxNestingDepth := by decide
  obtain ⟨m, rfl⟩ : ∃ m, n = m + 1 := ⟨n - 1, by omega⟩
  have e : nested (m + 1 + 1) =
      List.replicate (m + 1) 0x5B ++ (0x5B :: List.replicate (m + 1 + 1) 0x5D) := by
    simp only [nested]
    rw [List.replicate_succ' (m + 1) 0x5B, List.append_assoc]; rfl
  rw [checkValid, e, scanner.reset,
    open_brackets _ m _ [] false 0 (Or.inl rfl) (by simp only [List.length_nil]; omega)]
  have hlen : ¬ (List.replicate (m + 1) ParseState.parseArrayValue ++ []).length + 1 ≤
      maxNestingDepth := by
    simp only [List.append_nil, List.length_replicate]; omega
  rw [checkValidFrom]
  simp only [run_open_over _ (Or.inr rfl) _ _ _ hlen]
  simp

theorem scanAll_nil (s : scanner) : scanAll s [] = s := rfl

theorem scanAll_cons (s : scanner) (c : Nat) (l : List Nat) :
    scanAll s (c :: l) = scanAll (s.run c).1 l := rfl

theorem scanAll_append (s : scanner) (l1 l2 : List Nat) :
    scanAll s (l1 ++ l2) = scanAll (scanAll s l1) l2 := by
  simp [scanAll, List.foldl_append]

theorem scanAll_error (l : List Nat) (s : scanner) (h : s.step = .stateError) :
    scanAll s l = s := by
  induction l with
  | nil => rfl
  | cons c l ih =>
    have : s.run c = (s, scanError) := by simp [scanner.run, h, stateError]
    rw [scanAll_cons, this, ih]

theorem accepts_of_scanAll (l : List Nat) : ∀ (s : scanner), Good s →
    (scanAll s l).err = none → (scanAll s l).eof = none → accepts s l := by
  induction l with
  | nil => intro s _ _ h; exact h
  | cons c l ih =>
    intro s hs h1 h2
    rw [scanAll_cons] at h1 h2
    rcases run_err s c hs with ⟨e1, _⟩ | ⟨e1, e2⟩
    · exact ⟨e1, ih _ (good_run s c hs e1) h1 h2⟩
    · rw [scanAll_error l _ e2] at h1
      exact absurd h1 e1

theorem isWS_cons (c : Nat) (w : List Nat) (h : IsWS (c :: w)) :
    (c = 0x20 ∨ c = 0x09 ∨ c = 0x0A ∨ c = 0x0D) ∧ IsWS w :=
  ⟨h c (List.mem_cons_self _ _), fun x hx => h x (List.mem_cons_of_mem _ hx)⟩

theorem isWS_nil : IsWS [] := fun _ hc => by cases hc

/-- White space before a value or a key is skipped. -/
theorem ws_begin (st : StepFn) (hst : beginV st ∨ beginK st) (ps : List ParseState) (b : Nat)
    (w : List Nat) (hw : IsWS w) : scanAll (scannerAt st ps b) w = scannerAt st ps b := by
  induction w with
  | nil => rfl
  | cons c w ih =>
    obtain ⟨hc, hw2⟩ := isWS_cons c w hw
    have : (scannerAt st ps b).run c = (scannerAt st ps b, scanSkipSpace) := by
      rcases hst with (rfl | rfl) | (rfl | rfl) <;> rcases hc with rfl | rfl | rfl | rfl <;>
        simp [scannerAt, scanner.run, stateBeginValue, stateBeginValueOrEmpty, stateBeginString,
          stateBeginStringOrEmpty, isSpace]
    rw [scanAll_cons, this, ih hw2]

/-- White space after a value ends it. -/
theorem ws_after (w : List Nat) (hw : IsWS w) (ps : List ParseState) (b : Nat) :
    ∀ st, afterV st ps → ∃ st2, afterV st2 ps ∧
      scanAll (scannerAt st ps b) w = scannerAt st2 ps b := by
  induction w with
  | nil => intro st h; exact ⟨st, h, rfl⟩
  | cons c w ih =>
    intro st h
    obtain ⟨hc, hw2⟩ := isWS_cons c w hw
    have : ∃ st1, afterV st1 ps ∧ ((scannerAt st ps b).run c).1 = scannerAt st1 ps b := by
      rcases ps with _ | ⟨p, rest⟩
      · refine ⟨.stateEndTop, Or.inr (Or.inr ⟨rfl, rfl⟩), ?_⟩
        rcases h with rfl | (rfl | rfl | rfl | rfl) | ⟨rfl, -⟩ <;>
          rcases hc with rfl | rfl | rfl | rfl <;>
          simp [scannerAt, scanner.run, stateEndValue, stateEndTop, state0, state1, stateDot0,
            stateE0, isSpace, isDigit]
      · refine ⟨.stateEndValue, Or.inl rfl, ?_⟩
        rcases h with rfl | (rfl | rfl | rfl | rfl) | ⟨-, h0⟩
        all_goals first
          | cases h0
          | (rcases hc with rfl | rfl | rfl | rfl <;>
              simp [scannerAt, scanner.run, stateEndValue, stateEndTop, state0, state1, stateDot0,
                stateE0, isSpace, isDigit])
    obtain ⟨st1, h1, e1⟩ := this
    obtain ⟨st2, h2, e2⟩ := ih hw2 st1 h1
    exact ⟨st2, h2, by rw [scanAll_cons, e1, e2]⟩

theorem afterV_popped (ps : List ParseState) : afterV (popped ps) ps := by
  rcases ps with _ | ⟨p, rest⟩
  · exact Or.inr (Or.inr ⟨rfl, rfl⟩)
  · exact Or.inl (by simp [popped])

/-- What follows a value, by the top of the stack. -/
theorem after_step (st : StepFn) (top : ParseState) (ps : List ParseState) (b : Nat)
    (h : afterV st (top :: ps)) :
    (top = .parseArrayValue →
      ((scannerAt st (top :: ps) b).run 0x2C).1 = scannerAt .stateBeginValue (top :: ps) b ∧
      ((scannerAt st (top :: ps) b).run 0x5D).1 = scannerAt (popped ps) ps b) ∧
    (top = .parseObjectKey →
      ((scannerAt st (top :: ps) b).run 0x3A).1 =
        scannerAt .stateBeginValue (.parseObjectValue :: ps) b) ∧
    (top = .parseObjectValue →
      ((scannerAt st (top :: ps) b).run 0x2C).1 =
        scannerAt .stateBeginString (.parseObjectKey :: ps) b ∧
      ((scannerAt st (top :: ps) b).run 0x7D).1 = scannerAt (popped ps) ps b) := by
  rcases h with rfl | (rfl | rfl | rfl | rfl) | ⟨-, h0⟩
  all_goals first
    | cases h0
    | (refine ⟨?_, ?_, ?_⟩ <;> rintro rfl <;> by_cases hp : ps = [] <;>
        simp [scannerAt, scanner.run, stateEndValue, stateEndTop, state0, state1, stateDot0,
          stateE0, isSpace, isDigit, scanner.popParseState, popped, hp])

/-- An opening bracket or brace under the nesting limit is pushed. -/
theorem open_step (st : StepFn) (hst : beginV st) (ps : List ParseState) (b : Nat)
    (h : ps.length + 1 ≤ maxNestingDepth) :
    ((scannerAt st ps b).run 0x5B).1 =
      scannerAt .stateBeginValueOrEmpty (.parseArrayValue :: ps) b ∧
    ((scannerAt st ps b).run 0x7B).1 =
      scannerAt .stateBeginStringOrEmpty (.parseObjectKey :: ps) b := by
  rcases hst with rfl | rfl <;>
    simp [scannerAt, scanner.run, stateBeginValueOrEmpty, stateBeginValue, isSpace,
      scanner.pushParseState, h]

/-- The closing bracket of an empty array and the closing brace of an empty object. -/
theorem close_empty (ps : List ParseState) (b : Nat) :
    ((scannerAt .stateBeginValueOrEmpty (.parseArrayValue :: ps) b).run 0x5D).1 =
      scannerAt (popped ps) ps b ∧
    ((scannerAt .stateBeginStringOrEmpty (.parseObjectKey :: ps) b).run 0x7D).1 =
      scannerAt (popped ps) ps b := by
  by_cases hp : ps = [] <;>
    simp [scannerAt, scanner.run, stateBeginValueOrEmpty, stateBeginStringOrEmpty, stateEndValue,
      isSpace, scanner.popParseState, popped, hp]

/-- The characters of a string keep the scanner inside the string. -/
theorem chars_scan (cs : List Nat) (h : IsChars cs) (ps : List ParseState) (b : Nat) :
    scanAll (scannerAt .stateInString ps b) cs = scannerAt .stateInString ps b := by
  induction h with
  | nil => rfl
  | plain c l h1 h2 h3 _ ih =>
    have h4 : ¬ c < 32 := by omega
    have : ((scannerAt .stateInString ps b).run c).1 = scannerAt .stateInString ps b := by
      simp [scannerAt, scanner.run, stateInString, h2, h3, h4]
    rw [scanAll_cons, this, ih]
  | escaped c l h1 _ ih =>
    have : ((((scannerAt .stateInString ps b).run 0x5C).1).run c).1 =
        scannerAt .stateInString ps b := by
      rcases h1 with rfl | rfl | rfl | rfl | rfl | rfl | rfl | rfl <;>
        simp [scannerAt, scanner.run, stateInString, stateInStringEsc]
    rw [scanAll_cons, scanAll_cons, this, ih]
  | unicode x1 x2 x3 x4 l h1 h2 h3 h4 _ ih =>
    have : (((((((scannerAt .stateInString ps b).run 0x5C).1.run 0x75).1.run x1).1.run x2).1.run
        x3).1.run x4).1 = scannerAt .stateInString ps b := by
      simp [scannerAt, scanner.run, stateInString, stateInStringEsc, stateHex, h1, h2, h3, h4]
    rw [scanAll_cons, scanAll_cons, scanAll_cons, scanAll_cons, scanAll_cons, scanAll_cons, this, ih]

/-- A string, where a value or a key may begin, is read to its closing quote. -/
theorem string_scan (k : List Nat) (h : IsString k) (st : StepFn) (hst : beginV st ∨ beginK st)
    (ps : List ParseState) (b : Nat) :
    scanAll (scannerAt st ps b) k = scannerAt .stateEndValue ps b := by
  obtain ⟨cs, hcs, rfl⟩ := h
  have h1 : ((scannerAt st ps b).run 0x22).1 = scannerAt .stateInString ps b := by
    rcases hst with (rfl | rfl) | (rfl | rfl) <;>
      simp [scannerAt, scanner.run, stateBeginValue, stateBeginValueOrEmpty, stateBeginString,
        stateBeginStringOrEmpty, isSpace]
  have h2 : ((scannerAt .stateInString ps b).run 0x22).1 = scannerAt .stateEndValue ps b := by
    simp [scannerAt, scanner.run, stateInString]
  rw [scanAll_cons, h1, scanAll_append, chars_scan cs hcs, scanAll_cons, h2, scanAll_nil]

/-- The three literals. -/
theorem literal_scan (st : StepFn) (hst : beginV st) (ps : List ParseState) (b : Nat) :
    scanAll (scannerAt st ps b) [0x74, 0x72, 0x75, 0x65] = scannerAt .stateEndValue ps b ∧
    scanAll (scannerAt st ps b) [0x66, 0x61, 0x6C, 0x73, 0x65] = scannerAt .stateEndValue ps b ∧
    scanAll (scannerAt st ps b) [0x6E, 0x75, 0x6C, 0x6C] = scannerAt .stateEndValue ps b := by
  rcases hst with rfl | rfl <;>
    simp [scanAll, scannerAt, scanner.run, stateBeginValue, stateBeginValueOrEmpty, stateLit,
      isSpace]

theorem digit_cases (c : Nat) (h : isDigit c = true) :
    c = 0x30 ∨ c = 0x31 ∨ c = 0x32 ∨ c = 0x33 ∨ c = 0x34 ∨ c = 0x35 ∨ c = 0x36 ∨ c = 0x37 ∨
      c = 0x38 ∨ c = 0x39 := by
  simp only [isDigit, Bool.and_eq_true, decide_eq_true_eq] at h
  omega

theorem digit19_cases (c : Nat) (h : isDigit19 c = true) :
    c = 0x31 ∨ c = 0x32 ∨ c = 0x33 ∨ c = 0x34 ∨ c = 0x35 ∨ c = 0x36 ∨ c = 0x37 ∨
      c = 0x38 ∨ c = 0x39 := by
  simp only [isDigit19, Bool.and_eq_true, decide_eq_true_eq] at h
  omega

/-- One digit inside a number. -/
theorem digit_step (c : Nat) (h : isDigit c = true) (ps : List ParseState) (b : Nat) :
    ((scannerAt .state1 ps b).run c).1 = scannerAt .state1 ps b ∧
    ((scannerAt .stateDot ps b).run c).1 = scannerAt .stateDot0 ps b ∧
    ((scannerAt .stateDot0 ps b).run c).1 = scannerAt .stateDot0 ps b ∧
    ((scannerAt .stateE ps b).run c).1 = scannerAt .stateE0 ps b ∧
    ((scannerAt .stateESign ps b).run c).1 = scannerAt .stateE0 ps b ∧
    ((scannerAt .stateE0 ps b).run c).1 = scannerAt .stateE0 ps b := by
  rcases digit_cases c h with rfl | rfl | rfl | rfl | rfl | rfl | rfl | rfl | rfl | rfl <;>
    simp [scannerAt, scanner.run, state1, stateDot, stateDot0, stateE, stateESign, stateE0, isDigit]

/-- Further digits leave the scanner where it is. -/
theorem digits_stay (st : StepFn) (hst : st = .state1 ∨ st = .stateDot0 ∨ st = .stateE0)
    (ps : List ParseState) (b : Nat) (ds : List Nat) (h : ∀ d ∈ ds, isDigit d = true) :
    scanAll (scannerAt st ps b) ds = scannerAt st ps b := by
  induction ds with
  | nil => rfl
  | cons d ds ih =>
    obtain ⟨a1, -, a3, -, -, a6⟩ := digit_step d (h d (List.mem_cons_self _ _)) ps b
    have : ((scannerAt st ps b).run d).1 = scannerAt st ps b := by
      rcases hst with rfl | rfl | rfl
      · exact a1
      · exact a3
      · exact a6
    rw [scanAll_cons, this, ih (fun x hx => h x (List.mem_cons_of_mem _ hx))]

/-- The integer part, at the start of a value or after the minus sign. -/
theorem int_scan (i : List Nat) (h : IsInt i) (st : StepFn) (hst : beginV st ∨ st = .stateNeg)
    (ps : List ParseState) (b : Nat) :
    ∃ st1, (st1 = .state0 ∨ st1 = .state1) ∧
      scanAll (scannerAt st ps b) i = scannerAt st1 ps b := by
  rcases h with rfl | ⟨c, ds, rfl, hc, hds⟩
  · refine ⟨.state0, Or.inl rfl, ?_⟩
    rcases hst with (rfl | rfl) | rfl <;>
      simp [scanAll, scannerAt, scanner.run, stateBeginValue, stateBeginValueOrEmpty, stateNeg,
        isSpace]
  · refine ⟨.state1, Or.inr rfl, ?_⟩
    have : ((scannerAt st ps b).run c).1 = scannerAt .state1 ps b := by
      rcases digit19_cases c hc with rfl | rfl | rfl | rfl | rfl | rfl | rfl | rfl | rfl <;>
        rcases hst with (rfl | rfl) | rfl <;>
        simp [scannerAt, scanner.run, stateBeginValue, stateBeginValueOrEmpty, stateNeg,
          isSpace, isDigit19]
    rw [scanAll_cons, this, digits_stay _ (Or.inl rfl) ps b ds hds]

/-- The fraction. -/
theorem frac_scan (f : List Nat) (h : IsFrac f) (st : StepFn)
    (hst : st = .state0 ∨ st = .state1) (ps : List ParseState) (b : Nat) :
    ∃ st1, (st1 = .state0 ∨ st1 = .state1 ∨ st1 = .stateDot0) ∧
      scanAll (scannerAt st ps b) f = scannerAt st1 ps b := by
  rcases h with rfl | ⟨ds, ⟨hne, hds⟩, rfl⟩
  · rcases hst with rfl | rfl
    · exact ⟨_, Or.inl rfl, rfl⟩
    · exact ⟨_, Or.inr (Or.inl rfl), rfl⟩
  · refine ⟨.stateDot0, Or.inr (Or.inr rfl), ?_⟩
    obtain ⟨d, ds2, rfl⟩ := List.exists_cons_of_ne_nil hne
    have h1 : ((scannerAt st ps b).run 0x2E).1 = scannerAt .stateDot ps b := by
      rcases hst with rfl | rfl <;> simp [scannerAt, scanner.run, state0, state1, isDigit]
    obtain ⟨-, a2, -, -, -, -⟩ := digit_step d (hds d (List.mem_cons_self _ _)) ps b
    rw [scanAll_cons, h1, scanAll_cons, a2,
      digits_stay _ (Or.inr (Or.inl rfl)) ps b ds2 (fun x hx => hds x (List.mem_cons_of_mem _ hx))]

/-- The exponent. -/
theorem exp_scan (e : List Nat) (h : IsExp e) (st : StepFn)
    (hst : st = .state0 ∨ st = .state1 ∨ st = .stateDot0) (ps : List ParseState) (b : Nat) :
    ∃ st1, numEnd st1 ∧ scanAll (scannerAt st ps b) e = scannerAt st1 ps b := by
  rcases h with rfl | ⟨x, sg, ds, hx, hsg, ⟨hne, hds⟩, rfl⟩
  · rcases hst with rfl | rfl | rfl
    · exact ⟨_, Or.inl rfl, rfl⟩
    · exact ⟨_, Or.inr (Or.inl rfl), rfl⟩
    · exact ⟨_, Or.inr (Or.inr (Or.inl rfl)), rfl⟩
  · refine ⟨.stateE0, Or.inr (Or.inr (Or.inr rfl)), ?_⟩
    obtain ⟨d, ds2, rfl⟩ := List.exists_cons_of_ne_nil hne
    have h1 : ((scannerAt st ps b).run x).1 = scannerAt .stateE ps b := by
      rcases hx with rfl | rfl <;> rcases hst with rfl | rfl | rfl <;>
        simp [scannerAt, scanner.run, state0, state1, stateDot0, isDigit]
    obtain ⟨-, -, -, a4, a5, -⟩ := digit_step d (hds d (List.mem_cons_self _ _)) ps b
    have hrest := digits_stay _ (Or.inr (Or.inr rfl)) ps b ds2
      (fun x hx => hds x (List.mem_cons_of_mem _ hx))
    rw [scanAll_cons, h1]
    rcases hsg with rfl | rfl | rfl
    · rw [List.nil_append, scanAll_cons, a4, hrest]
    · have : ((scannerAt .stateE ps b).run 0x2B).1 = scannerAt .stateESign ps b := by
        simp [scannerAt, scanner.run, stateE]
      rw [List.singleton_append, scanAll_cons, this, scanAll_cons, a5, hrest]
    · have : ((scannerAt .stateE ps b).run 0x2D).1 = scannerAt .stateESign ps b := by
        simp [scannerAt, scanner.run, stateE]
      rw [List.singleton_append, scanAll_cons, this, scanAll_cons, a5, hrest]

/-- A number, where a value may begin, leaves the scanner where a number may end. -/
theorem number_scan (l : List Nat) (h : IsNumber l) (st : StepFn) (hst : beginV st)
    (ps : List ParseState) (b : Nat) :
    ∃ st1, numEnd st1 ∧ scanAll (scannerAt st ps b) l = scannerAt st1 ps b := by
  obtain ⟨m, i, f, e, hm, hi, hf, he, rfl⟩ := h
  have key : ∀ st0, (beginV st0 ∨ st0 = .stateNeg) →
      ∃ st1, numEnd st1 ∧ scanAll (scannerAt st0 ps b) (i ++ (f ++ e)) = scannerAt st1 ps b := by
    intro st0 h0
    obtain ⟨s1, g1, e1⟩ := int_scan i hi st0 h0 ps b
    obtain ⟨s2, g2, e2⟩ := frac_scan f hf s1 g1 ps b
    obtain ⟨s3, g3, e3⟩ := exp_scan e he s2 g2 ps b
    exact ⟨s3, g3, by rw [scanAll_append, e1, scanAll_append, e2, e3]⟩
  rcases hm with rfl | rfl
  · exact key st (Or.inl hst)
  · have : ((scannerAt st ps b).run 0x2D).1 = scannerAt .stateNeg ps b := by
      rcases hst with rfl | rfl <;>
        simp [scannerAt, scanner.run, stateBeginValue, stateBeginValueOrEmpty, isSpace]
    obtain ⟨s3, g3, e3⟩ := key .stateNeg (Or.inr rfl)
    exact ⟨s3, g3, by rw [List.singleton_append, scanAll_cons, this, e3]⟩

/-- A value between white space, where a value may begin. -/
theorem element_scan (d : Nat) (w1 v w2 : List Nat) (hw1 : IsWS w1) (hv : Scans .value d v)
    (hw2 : IsWS w2) (st : StepFn) (hst : beginV st) (ps : List ParseState) (b : Nat)
    (hlen : ps.length + d ≤ maxNestingDepth) :
    ∃ st2, afterV st2 ps ∧ scanAll (scannerAt st ps b) (w1 ++ (v ++ w2)) = scannerAt st2 ps b := by
  obtain ⟨s1, g1, e1⟩ := hv st ps b hst hlen
  obtain ⟨s2, g2, e2⟩ := ws_after w2 hw2 ps b s1 g1
  exact ⟨s2, g2, by rw [scanAll_append, ws_begin st (Or.inl hst) ps b w1 hw1, scanAll_append, e1, e2]⟩

/-- A key, a colon and a value, where a key may begin. -/
theorem member_scan (d : Nat) (w1 k w2 w3 v w4 : List Nat) (hw1 : IsWS w1) (hk : IsString k)
    (hw2 : IsWS w2) (hw3 : IsWS w3) (hv : Scans .value d v) (hw4 : IsWS w4) (st : StepFn)
    (hst : beginK st) (ps : List ParseState) (b : Nat)
    (hlen : ps.length + 1 + d ≤ maxNestingDepth) :
    ∃ st2, afterV st2 (.parseObjectValue :: ps) ∧
      scanAll (scannerAt st (.parseObjectKey :: ps) b) (w1 ++ (k ++ (w2 ++ 0x3A :: (w3 ++ (v ++ w4))))) =
        scannerAt st2 (.parseObjectValue :: ps) b := by
  obtain ⟨s1, g1, e1⟩ := ws_after w2 hw2 (.parseObjectKey :: ps) b .stateEndValue (Or.inl rfl)
  have e2 := (after_step s1 .parseObjectKey ps b g1).2.1 rfl
  obtain ⟨s3, g3, e3⟩ := element_scan d w3 v w4 hw3 hv hw4 .stateBeginValue (Or.inl rfl)
    (.parseObjectValue :: ps) b (by simp only [List.length_cons]; omega)
  refine ⟨s3, g3, ?_⟩
  rw [scanAll_append, ws_begin st (Or.inr hst) _ b w1 hw1, scanAll_append,
    string_scan k hk st (Or.inr hst), scanAll_append, e1, scanAll_cons, e2, e3]

theorem derives_scans (nt : NT) (d : Nat) (l : List Nat) (h : Derives nt d l) : Scans nt d l := by
  induction h with
  | litTrue d =>
    intro st ps b hst _
    exact ⟨_, Or.inl rfl, (literal_scan st hst ps b).1⟩
  | litFalse d =>
    intro st ps b hst _
    exact ⟨_, Or.inl rfl, (literal_scan st hst ps b).2.1⟩
  | litNull d =>
    intro st ps b hst _
    exact ⟨_, Or.inl rfl, (literal_scan st hst ps b).2.2⟩
  | number d l hl =>
    intro st ps b hst _
    obtain ⟨s1, g1, e1⟩ := number_scan l hl st hst ps b
    exact ⟨s1, Or.inr (Or.inl g1), e1⟩
  | string d l hl =>
    intro st ps b hst _
    exact ⟨_, Or.inl rfl, string_scan l hl st (Or.inl hst) ps b⟩
  | arrayEmpty d w hw =>
    intro st ps b hst hlen
    refine ⟨popped ps, afterV_popped ps, ?_⟩
    rw [scanAll_cons, (open_step st hst ps b (by omega)).1, scanAll_append,
      ws_begin _ (Or.inl (Or.inr rfl)) _ b w hw, scanAll_cons, (close_empty ps b).1, scanAll_nil]
  | array d es _ ih =>
    intro st ps b hst hlen
    obtain ⟨s1, g1, e1⟩ := ih .stateBeginValueOrEmpty ps b (Or.inr rfl) (by omega)
    refine ⟨popped ps, afterV_popped ps, ?_⟩
    rw [scanAll_cons, (open_step st hst ps b (by omega)).1, scanAll_append, e1, scanAll_cons,
      ((after_step s1 .parseArrayValue ps b g1).1 rfl).2, scanAll_nil]
  | objectEmpty d w hw =>
    intro st ps b hst hlen
    refine ⟨popped ps, afterV_popped ps, ?_⟩
    rw [scanAll_cons, (open_step st hst ps b (by omega)).2, scanAll_append,
      ws_begin _ (Or.inr (Or.inr rfl)) _ b w hw, scanAll_cons, (close_empty ps b).2, scanAll_nil]
  | object d ms _ ih =>
    intro st ps b hst hlen
    obtain ⟨s1, g1, e1⟩ := ih .stateBeginStringOrEmpty ps b (Or.inr rfl) (by omega)
    refine ⟨popped ps, afterV_popped ps, ?_⟩
    rw [scanAll_cons, (open_step st hst ps b (by omega)).2, scanAll_append, e1, scanAll_cons,
      ((after_step s1 .parseObjectValue ps b g1).2.2 rfl).2, scanAll_nil]
  | element d w1 v w2 hw1 _ hw2 ih =>
    intro st ps b hst hlen
    exact element_scan d w1 v w2 hw1 ih hw2 st hst _ b (by simp only [List.length_cons]; omega)
  | elementCons d w1 v w2 es hw1 _ hw2 _ ihv ihes =>
    intro st ps b hst hlen
    obtain ⟨s1, g1, e1⟩ := element_scan d w1 v w2 hw1 ihv hw2 st hst (.parseArrayValue :: ps) b
      (by simp only [List.length_cons]; omega)
    obtain ⟨s2, g2, e2⟩ := ihes .stateBeginValue ps b (Or.inl rfl) hlen
    refine ⟨s2, g2, ?_⟩
    have e : w1 ++ (v ++ (w2 ++ 0x2C :: es)) = (w1 ++ (v ++ w2)) ++ 0x2C :: es := by simp
    rw [e, scanAll_append, e1, scanAll_cons,
      ((after_step s1 .parseArrayValue ps b g1).1 rfl).1, e2]
  | member d w1 k w2 w3 v w4 hw1 hk hw2 hw3 _ hw4 ih =>
    intro st ps b hst hlen
    exact member_scan d w1 k w2 w3 v w4 hw1 hk hw2 hw3 ih hw4 st hst ps b hlen
  | memberCons d w1 k w2 w3 v w4 ms hw1 hk hw2 hw3 _ hw4 _ ihv ihms =>
    intro st ps b hst hlen
    obtain ⟨s1, g1, e1⟩ := member_scan d w1 k w2 w3 v w4 hw1 hk hw2 hw3 ihv hw4 st hst ps b hlen
    obtain ⟨s2, g2, e2⟩ := ihms .stateBeginString ps b (Or.inl rfl) hlen
    refine ⟨s2, g2, ?_⟩
    have e : w1 ++ (k ++ (w2 ++ 0x3A :: (w3 ++ (v ++ (w4 ++ 0x2C :: ms))))) =
        (w1 ++ (k ++ (w2 ++ 0x3A :: (w3 ++ (v ++ w4))))) ++ 0x2C :: ms := by simp
    rw [e, scanAll_append, e1, scanAll_cons,
      ((after_step s1 .parseObjectValue ps b g1).2.2 rfl).1, e2]

/-- The end of input after a top-level value completes it. -/
theorem eof_after (st : StepFn) (h : afterV st []) (b : Nat) : (scannerAt st [] b).eof = none := by
  rcases h with rfl | (rfl | rfl | rfl | rfl) | ⟨rfl, -⟩ <;>
    simp [scannerAt, scanner.eof, scanner.run, stateEndValue, stateEndTop, state0, state1,
      stateDot0, stateE0, isSpace, isDigit]

/-- A well-formed document nested no deeper than the limit passes `checkValid`. -/
theorem checkValid_of_element (d : Nat) (data : List Nat) (h : Element d data)
    (hd : d ≤ maxNestingDepth) : checkValid data = none := by
  obtain ⟨w1, v, w2, hw1, hv, hw2, rfl⟩ := h
  obtain ⟨s1, g1, e1⟩ := element_scan d w1 v w2 hw1 (derives_scans _ _ _ hv) hw2 .stateBeginValue
    (Or.inl rfl) [] 0 (by simpa using hd)
  have hr : scanner.reset = scannerAt .stateBeginValue [] 0 := rfl
  rw [checkValid_iff]
  apply accepts_of_scanAll _ _ good_reset
  · rw [hr, e1]; rfl
  · rw [hr, e1]; exact eof_after s1 g1 0

theorem strip_append (a b : List Nat) : strip (a ++ b) = strip a ++ strip b := by
  simp [strip, List.filter_append]

theorem strip_eq_self (l : List Nat) (h : ∀ c ∈ l, c ≠ 0x0A ∧ c ≠ 0x0D) : strip l = l := by
  rw [strip, List.filter_eq_self]
  intro c hc
  obtain ⟨h1, h2⟩ := h c hc
  simp [h1, h2]

theorem isWS_strip (w : List Nat) (h : IsWS w) : IsWS (strip w) :=
  fun c hc => h c (List.mem_filter.1 hc).1

theorem hex_not_nl (c : Nat) (h : isHex c = true) : c ≠ 0x0A ∧ c ≠ 0x0D := by
  simp only [isHex, isDigit, Bool.or_eq_true, Bool.and_eq_true, decide_eq_true_eq] at h
  omega

theorem digit_not_nl (c : Nat) (h : isDigit c = true) : c ≠ 0x0A ∧ c ≠ 0x0D := by
  simp only [isDigit, Bool.and_eq_true, decide_eq_true_eq] at h
  omega

theorem chars_strip (cs : List Nat) (h : IsChars cs) : strip cs = cs := by
  induction h with
  | nil => rfl
  | plain c l h1 h2 h3 _ ih =>
    rw [strip_cons_other c l (by omega) (by omega), ih]
  | escaped c l h1 _ ih =>
    rw [strip_cons_other _ _ (by decide) (by decide),
      strip_cons_other c l (by omega) (by omega), ih]
  | unicode x1 x2 x3 x4 l h1 h2 h3 h4 _ ih =>
    rw [strip_cons_other _ _ (by decide) (by decide), strip_cons_other _ _ (by decide) (by decide),
      strip_cons_other x1 _ (hex_not_nl x1 h1).1 (hex_not_nl x1 h1).2,
      strip_cons_other x2 _ (hex_not_nl x2 h2).1 (hex_not_nl x2 h2).2,
      strip_cons_other x3 _ (hex_not_nl x3 h3).1 (hex_not_nl x3 h3).2,
      strip_cons_other x4 _ (hex_not_nl x4 h4).1 (hex_not_nl x4 h4).2, ih]

theorem string_strip (k : List Nat) (h : IsString k) : strip k = k := by
  obtain ⟨cs, hcs, rfl⟩ := h
  rw [strip_cons_other _ _ (by decide) (by decide), strip_append, chars_strip cs hcs]
  rfl

theorem number_strip (l : List Nat) (h : IsNumber l) : strip l = l := by
  apply strip_eq_self
  obtain ⟨m, i, f, e, hm, hi, hf, he, rfl⟩ := h
  intro c hc
  simp only [List.mem_append] at hc
  rcases hc with hc | hc | hc | hc
  · rcases hm with rfl | rfl
    · cases hc
    · simp only [List.mem_singleton] at hc; omega
  · rcases hi with rfl | ⟨x, ds, rfl, hx, hds⟩
    · simp only [List.mem_singleton] at hc; omega
    · rcases List.mem_cons.1 hc with rfl | hc
      · simp only [isDigit19, Bool.and_eq_true, decide_eq_true_eq] at hx; omega
      · exact digit_not_nl c (hds c hc)
  · rcases hf with rfl | ⟨ds, ⟨-, hds⟩, rfl⟩
    · cases hc
    · rcases List.mem_cons.1 hc with rfl | hc
      · omega
      · exact digit_not_nl c (hds c hc)
  · rcases he with rfl | ⟨x, sg, ds, hx, hsg, ⟨-, hds⟩, rfl⟩
    · cases hc
    · rcases List.mem_cons.1 hc with rfl | hc
      · omega
      · rcases List.mem_append.1 hc with hc | hc
        · rcases hsg with rfl | rfl | rfl
          · cases hc
          · simp only [List.mem_singleton] at hc; omega
          · simp only [List.mem_singleton] at hc; omega
        · exact digit_not_nl c (hds c hc)

/-- Stripping keeps a derivation: only white space changes. -/
theorem derives_strip (nt : NT) (d : Nat) (l : List Nat) (h : Derives nt d l) :
    Derives nt d (strip l) := by
  induction h with
  | litTrue d => exact Derives.litTrue d
  | litFalse d => exact Derives.litFalse d
  | litNull d => exact Derives.litNull d
  | number d l hl => rw [number_strip l hl]; exact Derives.number d l hl
  | string d l hl => rw [string_strip l hl]; exact Derives.string d l hl
  | arrayEmpty d w hw =>
    rw [strip_cons_other _ _ (by decide) (by decide), strip_append]
    exact Derives.arrayEmpty d _ (isWS_strip w hw)
  | array d es _ ih =>
    rw [strip_cons_other _ _ (by decide) (by decide), strip_append]
    exact Derives.array d _ ih
  | objectEmpty d w hw =>
    rw [strip_cons_other _ _ (by decide) (by decide), strip_append]
    exact Derives.objectEmpty d _ (isWS_strip w hw)
  | object d ms _ ih =>
    rw [strip_cons_other _ _ (by decide) (by decide), strip_append]
    exact Derives.object d _ ih
  | element d w1 v w2 hw1 _ hw2 ih =>
    rw [strip_append, strip_append]
    exact Derives.element d _ _ _ (isWS_strip w1 hw1) ih (isWS_strip w2 hw2)
  | elementCons d w1 v w2 es hw1 _ hw2 _ ihv ihes =>
    rw [strip_append, strip_append, strip_append, strip_cons_other _ _ (by decide) (by decide)]
    exact Derives.elementCons d _ _ _ _ (isWS_strip w1 hw1) ihv (isWS_strip w2 hw2) ihes
  | member d w1 k w2 w3 v w4 hw1 hk hw2 hw3 _ hw4 ih =>
    rw [strip_append, strip_append, strip_append, strip_cons_other _ _ (by decide) (by decide),
      strip_append, strip_append, string_strip k hk]
    exact Derives.member d _ _ _ _ _ _ (isWS_strip w1 hw1) hk (isWS_strip w2 hw2)
      (isWS_strip w3 hw3) ih (isWS_strip w4 hw4)
  | memberCons d w1 k w2 w3 v w4 ms hw1 hk hw2 hw3 _ hw4 _ ihv ihms =>
    rw [strip_append, strip_append, strip_append, strip_cons_other _ _ (by decide) (by decide),
      strip_append, strip_append, strip_append, strip_cons_other _ _ (by decide) (by decide),
      string_strip k hk]
    exact Derives.memberCons d _ _ _ _ _ _ _ (isWS_strip w1 hw1) hk (isWS_strip w2 hw2)
      (isWS_strip w3 hw3) ihv (isWS_strip w4 hw4) ihms

theorem element_strip (d : Nat) (l : List Nat) (h : Element d l) : Element d (strip l) := by
  obtain ⟨w1, v, w2, hw1, hv, hw2, rfl⟩ := h
  exact ⟨strip w1, strip v, strip w2, isWS_strip w1 hw1, derives_strip _ _ _ hv,
    isWS_strip w2 hw2, by rw [strip_append, strip_append]⟩

/-- On a document the validator accepts: stripping keeps it accepted and keeps
its compact form, and the handler answers 200 with that compact form. -/
theorem wellformed_of_checkValid (data : List Nat) (h : checkValid data = none) :
    checkValid (strip data) = none ∧
    compact false (strip data) = compact false data ∧
    ∃ body, json.Marshal (.raw (json.Unmarshal (strip data) none).1) = some body ∧
      compact true data = some body ∧
      respond (.regular data) = ⟨200, body⟩ := by
  have ha := (checkValid_iff _).1 h
  have hs := checkValid_strip data h
  have hc : ∀ e, compact e data = compact e (strip data) := fun e =>
    compact_strip e data _ _ 0 (sim_refl _ good_reset) ha (Or.inl rfl)
  obtain ⟨body, hb, hm⟩ := marshal_raw data hs
  obtain ⟨k, body2, c1, h1⟩ := handle_regular_valid data 0 hs
  obtain ⟨-, -, a3, -, -⟩ := serve_of_handle _ _ _ _ _ _ _ h1
  rw [hb] at c1
  cases c1
  refine ⟨hs, (hc false).symm, body, ?_, (hc true).trans hb, a3⟩
  simp only [json.Unmarshal, hs]
  exact hm

theorem isWS_lf : IsWS [0x0A] := fun c hc => by
  simp only [List.mem_singleton] at hc
  omega

theorem isString_key (c : Nat) (h1 : 0x20 ≤ c) (h2 : c ≠ 0x22) (h3 : c ≠ 0x5C) :
    IsString [0x22, c, 0x22] :=
  ⟨[c], IsChars.plain c [] h1 h2 h3 IsChars.nil, rfl⟩

theorem isNumber_digit (c : Nat) (h : isDigit19 c = true) : IsNumber [c] :=
  ⟨[], [c], [], [], Or.inl rfl, Or.inr ⟨c, [], rfl, h, fun _ hd => by cases hd⟩, Or.inl rfl,
    Or.inl rfl, rfl⟩

/-- The document of the specification, `{"x":1,` line feed `"y":2}` line feed, is
well-formed, nested one deep. -/
theorem sample_element : Element 1 (bytes "\x7b\"x\":1,\n\"y\":2\x7d\n") :=
  ⟨[], _, [0x0A], isWS_nil,
    Derives.object 0 _
      (Derives.memberCons 0 [] [0x22, 0x78, 0x22] [] [] [0x31] [] _ isWS_nil
        (isString_key 0x78 (by decide) (by decide) (by decide)) isWS_nil isWS_nil
        (Derives.number 0 _ (isNumber_digit 0x31 (by decide))) isWS_nil
        (Derives.member 0 [0x0A] [0x22, 0x79, 0x22] [] [] [0x32] [] isWS_lf
          (isString_key 0x79 (by decide) (by decide) (by decide)) isWS_nil isWS_nil
          (Derives.number 0 _ (isNumber_digit 0x32 (by decide))) isWS_nil)),
    isWS_lf, by decide⟩

/-! ## The claims -/

/-- C1 (amended): when `body.txt` holds a well-formed JSON document whose arrays
and objects nest at most 10000 deep (`maxNestingDepth`, the limit of Go's
validator), the handler answers 200 and the body is the serialisation
(`json.Marshal`) of the value that the stripped text unmarshals to.  Stripping
leaves the document well-formed, at the same depth, and accepted by the validator,
and it denotes the same value: the stripped text and the original have the same
compact form, with (`true`) and without (`false`) HTML escaping, and the body is
that compact form of the original. -/
theorem getBody_wellformed (d : Nat) (data : List Nat) (h : Element d data)
    (hd : d ≤ maxNestingDepth) :
    checkValid data = none ∧
    Element d (strip data) ∧
    checkValid (strip data) = none ∧
    compact false (strip data) = compact false data ∧
    ∃ body, json.Marshal (.raw (json.Unmarshal (strip data) none).1) = some body ∧
      compact true data = some body ∧
      respond (.regular data) = ⟨200, body⟩ := by
  have hv := checkValid_of_element d data h hd
  obtain ⟨h1, h2, h3⟩ := wellformed_of_checkValid data hv
  exact ⟨hv, element_strip d data h, h1, h2, h3⟩

/-- Witness of C1 on a document with a line break between two members. -/
theorem getBody_wellformed_witness :
    Element 1 (bytes "\x7b\"x\":1,\n\"y\":2\x7d\n") ∧ 1 ≤ maxNestingDepth ∧
    (checkValid (bytes "\x7b\"x\":1,\n\"y\":2\x7d\n") = none ∧
      Element 1 (strip (bytes "\x7b\"x\":1,\n\"y\":2\x7d\n")) ∧
      checkValid (strip (bytes "\x7b\"x\":1,\n\"y\":2\x7d\n")) = none ∧
      compact false (strip (bytes "\x7b\"x\":1,\n\"y\":2\x7d\n")) =
        compact false (bytes "\x7b\"x\":1,\n\"y\":2\x7d\n") ∧
      ∃ body, json.Marshal (.raw (json.Unmarshal (strip (bytes "\x7b\"x\":1,\n\"y\":2\x7d\n"))
          none).1) = some body ∧
        compact true (bytes "\x7b\"x\":1,\n\"y\":2\x7d\n") = some body ∧
        respond (.regular (bytes "\x7b\"x\":1,\n\"y\":2\x7d\n")) = ⟨200, body⟩) :=
  ⟨sample_element, by decide, getBody_wellformed 1 _ sample_element (by decide)⟩

/-- C1 as first stated fails: 10001 opening brackets followed by 10001 closing
brackets are a well-formed JSON document, yet the validator stops at the 10001st
bracket (one more than `maxNestingDepth`) and the handler answers 500. -/
theorem getBody_wellformed_deep :
    WellFormed (nested 10001) ∧
    checkValid (nested 10001) = some ⟨10001⟩ ∧
    respond (.regular (nested 10001)) = ⟨500, bytes "\x7b\"Offset\":10001\x7dnull"⟩ := by
  have hv : checkValid (nested 10001) = some ⟨10001⟩ := checkValid_nested_over 10000 rfl
  have hs : checkValid (strip (nested 10001)) = some ⟨10001⟩ := by rw [strip_nested]; exact hv
  obtain ⟨k, h1⟩ := handle_regular_invalid (nested 10001) 0 ⟨10001⟩ hs
  obtain ⟨-, -, a3, -, -⟩ := serve_of_handle _ _ _ _ _ _ _ h1
  refine ⟨nested_wellFormed 10000, hv, ?_⟩
  have e : syntaxPayload ⟨10001⟩ ++ bytes "null" = bytes "\x7b\"Offset\":10001\x7dnull" := by
    decide
  rw [← e]
  exact a3

/-- C2: the status is 200 exactly when `body.txt` was opened and read and its
stripped text is valid JSON; in every other case it is 500, although the last
statement of the handler is `c.JSON(200, data)`; the content `{"a": }` gives 500. -/
theorem getBody_status (f : FileState) :
    ((respond f).status = 200 ↔
      ∃ data, f = .regular data ∧ checkValid (strip data) = none) ∧
    ((respond f).status = 200 ∨ (respond f).status = 500) ∧
    (respond (.regular (bytes "\x7b\"a\": \x7d"))).status = 500 := by
  obtain ⟨-, -, -, -, -, h⟩ := serve_cases f 0
  refine ⟨?_, ?_, by decide⟩
  · constructor
    · intro h2
      rcases h with ⟨-, h3⟩ | ⟨h3, -⟩
      · exact h3
      · have h4 : (respond f).status = 500 := h3
        omega
    · intro h2
      rcases h with ⟨h3, -⟩ | ⟨-, h3⟩
      · exact h3
      · exact absurd h2 h3
  · rcases h with ⟨h3, -⟩ | ⟨h3, -⟩
    · exact Or.inl h3
    · exact Or.inr h3

/-- C3: when opening `body.txt` fails, the status is 500 and the body is not
empty: it begins with the serialised `*fs.PathError` of the failed open. -/
theorem getBody_missing (errno : Nat) :
    (os.Open "body.txt" ⟨.missing errno, 0⟩).1 = none ∧
    (respond (.missing errno)).status = 500 ∧
    (respond (.missing errno)).body ≠ [] ∧
    json.Marshal (.error (.PathError "open" "body.txt" errno)) =
      some (pathPayload "open" errno) ∧
    pathPayload "open" errno <+: (respond (.missing errno)).body := by
  obtain ⟨k, h1⟩ := handle_missing errno 0
  obtain ⟨-, -, a3, -, -⟩ := serve_of_handle _ _ _ _ _ _ _ h1
  have a3' : respond (.missing errno) = _ := a3
  rw [a3']
  refine ⟨rfl, rfl, ?_, rfl, ?_⟩
  · simp [bytes]
  · simp only [List.append_assoc]
    exact List.prefix_append _ _

/-- C4, at the content `{"a": }`: the body of the 500 response is the serialised
syntax error followed by `null`, not the serialised error alone. -/
theorem getBody_error_body :
    respond (.regular (bytes "\x7b\"a\": \x7d")) = ⟨500, bytes "\x7b\"Offset\":7\x7dnull"⟩ ∧
    json.Marshal (.error (.Syntax ⟨7⟩)) = some (bytes "\x7b\"Offset\":7\x7d") ∧
    (respond (.regular (bytes "\x7b\"a\": \x7d"))).body ≠ bytes "\x7b\"Offset\":7\x7d" := by
  decide

/-- C5: the handler removes every line feed and carriage return and nothing
else (the two `ReplaceAll` calls are `strip`, a filter), and two readable
contents with the same stripped text get the same response. -/
theorem getBody_strip_invariant (d1 d2 : List Nat) (h : strip d1 = strip d2) :
    strings.ReplaceAll (strings.ReplaceAll d1 0x0A [] []) 0x0D [] [] =
      d1.filter (fun c => c != 0x0A && c != 0x0D) ∧
    respond (.regular d1) = respond (.regular d2) :=
  ⟨replaceAll_strip d1, (serve_regular_strip d1 d2 0 0 h).1⟩

/-- Witness of C5 on the two documents of the specification. -/
theorem getBody_strip_invariant_witness :
    strip (bytes "\x7b\"x\":1,\n\"y\":2\x7d\n") = strip (bytes "\x7b\"x\":1,\"y\":2\x7d") ∧
    (strings.ReplaceAll (strings.ReplaceAll (bytes "\x7b\"x\":1,\n\"y\":2\x7d\n") 0x0A [] [])
        0x0D [] [] =
      (bytes "\x7b\"x\":1,\n\"y\":2\x7d\n").filter (fun c => c != 0x0A && c != 0x0D) ∧
    respond (.regular (bytes "\x7b\"x\":1,\n\"y\":2\x7d\n")) =
      respond (.regular (bytes "\x7b\"x\":1,\"y\":2\x7d"))) :=
  ⟨by decide, getBody_strip_invariant _ _ (by decide)⟩

/-- C6: a request leaves the world as it found it (the file untouched, no
descriptor left open), so a second request against it gets the same status, body
and log lines; the response depends on the state of `body.txt` alone. -/
theorem getBody_stateless (w : World) :
    (serve w).world = w ∧
    (serve (serve w).world).response = (serve w).response ∧
    (serve (serve w).world).log = (serve w).log ∧
    (serve w).response = respond w.bodyTxt := by
  obtain ⟨f, n⟩ := w
  obtain ⟨h1, -, h3, -, -, -⟩ := serve_cases f n
  refine ⟨h1, ?_, ?_, h3⟩ <;> rw [h1]

/-- C7: for all parsed flags, `Host` is `127.0.0.1` for the empty host and the
given host otherwise, `Port` is 1515 for port 0 and the given port otherwise,
`Debug` is unchanged; `Start` listens on `Host:Port`, which with the flag
defaults is `127.0.0.1:1515`. -/
theorem config_defaulting (host : String) (port : Int) (debug : Bool) :
    (mainConfig host port debug).Host = (if host = "" then "127.0.0.1" else host) ∧
    (mainConfig host port debug).Port = (if port = 0 then 1515 else port) ∧
    (mainConfig host port debug).Debug = debug ∧
    (New (mainConfig host port debug)).Start.Addr =
      (mainConfig host port debug).Host ++ ":" ++ fmtInt (mainConfig host port debug).Port ∧
    (New (mainConfig flagDefaults.1 flagDefaults.2.1 flagDefaults.2.2)).Start.Addr =
      "127.0.0.1:1515" :=
  ⟨rfl, rfl, rfl, rfl, by decide⟩

/-- C8: whatever the state of `body.txt`, the handler returns with a response
written: the status line was sent, with 200 or 500.  Reading and closing the nil
handle of a failed open are error returns, not faults. -/
theorem getBody_returns (w : World) :
    (Server.getBody (fresh w)).c.Writer.Written = true ∧
    (∃ code, (serve w).c.Writer.sent = some code ∧ (code = 200 ∨ code = 500)) ∧
    io.ReadAll none = ([], some .ErrInvalid) ∧
    File.Close none w = (some .ErrInvalid, w) := by
  obtain ⟨f, n⟩ := w
  obtain ⟨-, h2, -, -, h5, h6⟩ := serve_cases f n
  refine ⟨h2, ⟨_, h5, ?_⟩, rfl, rfl⟩
  rcases h6 with ⟨h, -⟩ | ⟨h, -⟩
  · exact Or.inl h
  · exact Or.inr h

/-- C9: after a failed open the handler goes on: it reads the nil handle, parses
the empty text and runs the final `c.JSON(200, data)`.  Three errors are logged
and the body is four payloads in a row: the open error, `{}` for the failed read,
the syntax error of the empty text, and `null` for the nil `data`. -/
theorem getBody_continues (errno n : Nat) :
    (serve ⟨.missing errno, n⟩).log = ["error opening file body.txt",
      "error reading file body.txt", "error unmarshal data body.txt"] ∧
    (serve ⟨.missing errno, n⟩).response = ⟨500, pathPayload "open" errno ++ bytes "\x7b\x7d" ++
      bytes "\x7b\"Offset\":0\x7d" ++ bytes "null"⟩ ∧
    json.Marshal (.error (.PathError "open" "body.txt" errno)) =
      some (pathPayload "open" errno) ∧
    (io.ReadAll none).2.map (fun e => json.Marshal (.error e)) = some (some (bytes "\x7b\x7d")) ∧
    (json.Unmarshal [] none).2.map (fun e => json.Marshal (.error (.Syntax e))) =
      some (some (bytes "\x7b\"Offset\":0\x7d")) ∧
    json.Marshal (.raw (json.Unmarshal [] none).1) = some (bytes "null") := by
  obtain ⟨k, h1⟩ := handle_missing errno n
  obtain ⟨-, a2, a3, -, -⟩ := serve_of_handle _ _ _ _ _ _ _ h1
  exact ⟨a2, a3, rfl, rfl, by decide, by decide⟩

/-- C10: the contents `tr\nue` and `"a\nb"` (a raw line feed inside the literal
and inside the string) are not valid JSON, yet the handler answers 200, with
`true` and `"ab"`. -/
theorem strip_makes_valid :
    checkValid (bytes "tr\nue") ≠ none ∧
    respond (.regular (bytes "tr\nue")) = ⟨200, bytes "true"⟩ ∧
    checkValid (bytes "\"a\nb\"") ≠ none ∧
    respond (.regular (bytes "\"a\nb\"")) = ⟨200, bytes "\"ab\""⟩ := by
  decide

end DummyServer
